import Mathlib

/-!
Verification development for the MRI emulator core (MRI_core.py).

The Python source is shallowly embedded:
 - numpy 2-D arrays become lists of rows of real numbers (`Img`), 3-D
   parameter volumes become `Vol` (indexed as vol[i][j][k]);
 - float arithmetic is modelled by exact real arithmetic (the pulse-sequence
   equations, the geometry pipeline), except where a claim is explicitly
   about IEEE NaN/Inf handling, which is modelled by the extended value
   type `NF` below;
 - Python integer arithmetic (slice windows, crop sizes) is modelled by ℤ/ℕ
   with explicit truncation mirroring the semantics of int() and of floor
   division on the operand signs that actually occur.
-/

namespace MRISim

/-- Images: a numpy 2-D float array as a list of rows of reals. -/
abbrev Img : Type := List (List ℝ)

/-- Volumes: a numpy 3-D float array, indexed as vol[i][j][k]. -/
abbrev Vol : Type := List (List (List ℝ))

/-- Row count of an image, numpy shape[0]. -/
def rowsOf (img : Img) : ℕ := img.length

/-- Column count of an image, numpy shape[1] (width of the first row). -/
def colsOf (img : Img) : ℕ := (img.headD []).length

/-- Rectangularity: the 2-D array has exactly h rows, each of width w. -/
def Rect {α : Type} (img : List (List α)) (h w : ℕ) : Prop :=
  img.length = h ∧ ∀ r ∈ img, r.length = w

/-- Shape of a volume: (shape[0], shape[1], shape[2]). -/
def Rect3 (v : Vol) (d0 d1 d2 : ℕ) : Prop :=
  v.length = d0 ∧ ∀ p ∈ v, p.length = d1 ∧ ∀ r ∈ p, r.length = d2

/-- All entries of an image are non-negative. -/
def NonnegImg (img : Img) : Prop := ∀ r ∈ img, ∀ x ∈ r, 0 ≤ x

/-- All entries of a volume are non-negative. -/
def NonnegVol (v : Vol) : Prop := ∀ p ∈ v, ∀ r ∈ p, ∀ x ∈ r, 0 ≤ x

/-- Height adjustment of crop_or_pad (MRI_core.py lines 321-326): center-crop
the rows when the image is at least target_size tall (start = diff_h // 2),
otherwise zero-pad with abs(diff_h) // 2 rows on top and the rest on the
bottom.  The Python int arithmetic on diff_h = h - target_size is rendered in
ℕ on each sign branch (diff_h >= 0 iff target_size ≤ h). -/
def heightStep (img : Img) (w target_size : ℕ) : Img :=
  if target_size ≤ img.length then
    (img.drop ((img.length - target_size) / 2)).take target_size
  else
    List.replicate ((target_size - img.length) / 2) (List.replicate w (0:ℝ))
      ++ img
      ++ List.replicate ((target_size - img.length)
            - (target_size - img.length) / 2) (List.replicate w (0:ℝ))

/-- Width adjustment of crop_or_pad (MRI_core.py lines 327-332), applied to
every row; w is the width read from the original image shape. -/
def widthStep (img1 : Img) (w target_size : ℕ) : Img :=
  if target_size ≤ w then
    img1.map (fun r => (r.drop ((w - target_size) / 2)).take target_size)
  else
    img1.map (fun r => List.replicate ((target_size - w) / 2) (0:ℝ) ++ r
      ++ List.replicate ((target_size - w) - (target_size - w) / 2) (0:ℝ))

/-- Model of MRISimulatorModel.crop_or_pad (MRI_core.py lines 315-333): the
input is returned unchanged when both shape differences are zero, otherwise
the height step and then the width step are applied. -/
def crop_or_pad (img : Img) (target_size : ℕ) : Img :=
  if img.length = target_size ∧ (img.headD []).length = target_size then img
  else widthStep (heightStep img ((img.headD []).length) target_size)
    ((img.headD []).length) target_size

lemma heightStep_length (img : Img) (w target_size : ℕ) :
    (heightStep img w target_size).length = target_size := by
  unfold heightStep
  split
  · simp only [List.length_take, List.length_drop]
    omega
  · simp only [List.length_append, List.length_replicate]
    omega

lemma heightStep_mem (img : Img) (w target_size : ℕ) (r : List ℝ)
    (hr : r ∈ heightStep img w target_size) :
    r ∈ img ∨ r = List.replicate w (0:ℝ) := by
  unfold heightStep at hr
  split at hr
  · exact Or.inl (List.mem_of_mem_drop (List.mem_of_mem_take hr))
  · simp only [List.mem_append, List.mem_replicate] at hr
    rcases hr with (hr | hr) | hr
    · exact Or.inr hr.2
    · exact Or.inl hr
    · exact Or.inr hr.2

lemma widthStep_length (img1 : Img) (w target_size : ℕ) :
    (widthStep img1 w target_size).length = img1.length := by
  unfold widthStep
  split <;> simp

lemma widthStep_rows (img1 : Img) (w target_size : ℕ)
    (hw : ∀ r ∈ img1, r.length = w) :
    ∀ r ∈ widthStep img1 w target_size, r.length = target_size := by
  intro r hr
  unfold widthStep at hr
  split at hr
  · simp only [List.mem_map] at hr
    obtain ⟨r0, hr0, rfl⟩ := hr
    have := hw r0 hr0
    simp only [List.length_take, List.length_drop, this]
    omega
  · simp only [List.mem_map] at hr
    obtain ⟨r0, hr0, rfl⟩ := hr
    have := hw r0 hr0
    simp only [List.length_append, List.length_replicate, this]
    omega

lemma rect_crop_or_pad (img : Img) (h w target_size : ℕ)
    (hrect : Rect img h w) (ht : 0 < target_size) :
    Rect (crop_or_pad img target_size) target_size target_size := by
  obtain ⟨hlen, hwid⟩ := hrect
  unfold crop_or_pad
  split
  · rename_i hcond
    refine ⟨hcond.1, fun r hr => ?_⟩
    cases img with
    | nil => simp at hr
    | cons r0 l =>
      have hc : r0.length = w := hwid r0 (by simp)
      have : r.length = w := hwid r hr
      have : ((r0 :: l : Img).headD []).length = r0.length := by simp
      omega
  · constructor
    · rw [widthStep_length, heightStep_length]
    · apply widthStep_rows
      intro r hr
      rcases heightStep_mem _ _ _ r hr with hmem | hrep
      · have h1 := hwid r hmem
        cases img with
        | nil => simp at hmem
        | cons r0 l =>
          have hc : r0.length = w := hwid r0 (by simp)
          simp only [List.headD_cons, hc, h1]
      · rw [hrep]
        cases img with
        | nil => simp at *
        | cons r0 l =>
          have hc : r0.length = w := hwid r0 (by simp)
          simp only [List.headD_cons, hc, List.length_replicate]

lemma crop_or_pad_self (img : Img) (target_size : ℕ)
    (hrect : Rect img target_size target_size) :
    crop_or_pad img target_size = img := by
  obtain ⟨hlen, hwid⟩ := hrect
  unfold crop_or_pad
  have hcols : (img.headD []).length = target_size := by
    cases img with
    | nil => simp at hlen ⊢; omega
    | cons r0 l => simpa using hwid r0 (by simp)
  rw [if_pos ⟨hlen, hcols⟩]

/-- C2: crop_or_pad is idempotent: for every rectangular 2-D array and every
positive target size, applying it twice equals applying it once; and when the
image is already target_size × target_size, it is returned unchanged. -/
theorem crop_or_pad_idempotent (img : Img) (h w target_size : ℕ)
    (hrect : Rect img h w) (ht : 0 < target_size) :
    crop_or_pad (crop_or_pad img target_size) target_size
        = crop_or_pad img target_size ∧
    (Rect img target_size target_size → crop_or_pad img target_size = img) := by
  constructor
  · exact crop_or_pad_self _ _ (rect_crop_or_pad img h w target_size hrect ht)
  · intro hsq
    exact crop_or_pad_self _ _ hsq

/-- Witness for C2 at a concrete input: a 3×2 image cropped/padded to 2×2,
and the no-op direction on the same input. -/
theorem crop_or_pad_idempotent_witness :
    Rect [[(1:ℝ),2],[3,4],[5,6]] 3 2 ∧ 0 < 2 ∧
    (crop_or_pad (crop_or_pad [[(1:ℝ),2],[3,4],[5,6]] 2) 2
        = crop_or_pad [[(1:ℝ),2],[3,4],[5,6]] 2 ∧
     (Rect [[(1:ℝ),2],[3,4],[5,6]] 2 2 →
        crop_or_pad [[(1:ℝ),2],[3,4],[5,6]] 2 = [[(1:ℝ),2],[3,4],[5,6]])) :=
  ⟨by constructor <;> simp [Rect], by norm_num,
    crop_or_pad_idempotent [[(1:ℝ),2],[3,4],[5,6]] 3 2 2
      (by constructor <;> simp [Rect]) (by norm_num)⟩

/-! ### Pulse-sequence signal equations (MRIPhysics), exact-real semantics

np.nan_to_num is the identity on this model since exact reals have no NaN
or Inf; the IEEE-level behaviour of the scrubbing is modelled separately by
the NF type below. -/

/-- np.radians: degrees to radians. -/
noncomputable def radians (deg : ℝ) : ℝ := deg * (Real.pi / 180)

/-- Model of MRIPhysics.calculate_signal_steady_state (MRI_core.py lines
72-88), per voxel: T1/T2 clamped to at least 1e-5, E1 = exp(-TR/T1),
E2 = exp(-TE/T2), S = PD·(1-E1)·sin(FA) / (1 - E1·cos(FA) + 1e-9) · E2. -/
noncomputable def calculate_signal_steady_state
    (t1 t2 pd tr te fa_deg : ℝ) : ℝ :=
  (pd * (1 - Real.exp (-tr / max t1 1e-5)) * Real.sin (radians fa_deg)
      / (1 - Real.exp (-tr / max t1 1e-5) * Real.cos (radians fa_deg) + 1e-9))
    * Real.exp (-te / max t2 1e-5)

/-- Model of MRIPhysics.spin_echo (line 91): delegates to the steady-state
equation. -/
noncomputable def spin_echo (t1 t2 pd tr te fa_deg : ℝ) : ℝ :=
  calculate_signal_steady_state t1 t2 pd tr te fa_deg

/-- Model of MRIPhysics.gradient_echo (line 95): delegates to the
steady-state equation. -/
noncomputable def gradient_echo (t1 t2 pd tr te fa_deg : ℝ) : ℝ :=
  calculate_signal_steady_state t1 t2 pd tr te fa_deg

/-- Longitudinal magnetisation of the inversion-recovery sequence
(MRI_core.py line 107): Mz(TI) = 1 - 2·exp(-TI/T1) + exp(-TR/T1). -/
noncomputable def mz_ti (t1 tr ti : ℝ) : ℝ :=
  1 - 2 * Real.exp (-ti / t1) + Real.exp (-tr / t1)

/-- Model of MRIPhysics.inversion_recovery (MRI_core.py lines 98-110), per
voxel: |PD · Mz(TI) · sin(FA) · exp(-TE/T2)|. -/
noncomputable def inversion_recovery (t1 t2 pd tr te ti fa_deg : ℝ) : ℝ :=
  |pd * mz_ti t1 tr ti * Real.sin (radians fa_deg) * Real.exp (-te / t2)|

lemma radians_nonneg_of_fa (fa : ℝ) (h0 : 0 ≤ fa) : 0 ≤ radians fa := by
  unfold radians
  positivity

lemma radians_le_pi_of_fa (fa : ℝ) (h1 : fa ≤ 180) : radians fa ≤ Real.pi := by
  unfold radians
  nlinarith [Real.pi_pos]

lemma sin_radians_nonneg (fa : ℝ) (h0 : 0 ≤ fa) (h1 : fa ≤ 180) :
    0 ≤ Real.sin (radians fa) :=
  Real.sin_nonneg_of_nonneg_of_le_pi (radians_nonneg_of_fa fa h0)
    (radians_le_pi_of_fa fa h1)

lemma css_denominator_pos (t1 tr fa : ℝ) (htr : 0 ≤ tr) :
    (0:ℝ) < 1 - Real.exp (-tr / max t1 1e-5) * Real.cos (radians fa) + 1e-9 := by
  have ht1 : (0:ℝ) < max t1 1e-5 := lt_max_of_lt_right (by norm_num)
  have he1 : Real.exp (-tr / max t1 1e-5) ≤ 1 :=
    Real.exp_le_one_iff.mpr (by
      apply div_nonpos_of_nonpos_of_nonneg <;> [linarith; linarith])
  have he0 : (0:ℝ) < Real.exp (-tr / max t1 1e-5) := Real.exp_pos _
  have hcos : Real.cos (radians fa) ≤ 1 := Real.cos_le_one _
  have hcos2 : -1 ≤ Real.cos (radians fa) := Real.neg_one_le_cos _
  nlinarith

/-- Core non-negativity of the steady-state signal: holds for any T1, T2, TE
(thanks to the 1e-5 clamp) once PD ≥ 0, TR ≥ 0 and FA ∈ [0, 180]. -/
lemma css_nonneg (t1 t2 pd tr te fa : ℝ) (hpd : 0 ≤ pd) (htr : 0 ≤ tr)
    (hfa0 : 0 ≤ fa) (hfa1 : fa ≤ 180) :
    0 ≤ calculate_signal_steady_state t1 t2 pd tr te fa := by
  unfold calculate_signal_steady_state
  have ht1 : (0:ℝ) < max t1 1e-5 := lt_max_of_lt_right (by norm_num)
  have he1 : Real.exp (-tr / max t1 1e-5) ≤ 1 :=
    Real.exp_le_one_iff.mpr (by
      apply div_nonpos_of_nonpos_of_nonneg <;> [linarith; linarith])
  have hnum : 0 ≤ pd * (1 - Real.exp (-tr / max t1 1e-5))
      * Real.sin (radians fa) := by
    have := sin_radians_nonneg fa hfa0 hfa1
    have h1 : (0:ℝ) ≤ 1 - Real.exp (-tr / max t1 1e-5) := by linarith
    positivity
  have hden := css_denominator_pos t1 tr fa htr
  have he2 : (0:ℝ) < Real.exp (-te / max t2 1e-5) := Real.exp_pos _
  positivity

/-- Explicit finiteness bound for the steady-state signal: with TE ≥ 0 the
signal is at most PD · 10⁹. -/
lemma css_le_bound (t1 t2 pd tr te fa : ℝ) (hpd : 0 ≤ pd) (htr : 0 ≤ tr)
    (hte : 0 ≤ te) (hfa0 : 0 ≤ fa) (hfa1 : fa ≤ 180) :
    calculate_signal_steady_state t1 t2 pd tr te fa ≤ pd * 10 ^ 9 := by
  unfold calculate_signal_steady_state
  have ht1 : (0:ℝ) < max t1 1e-5 := lt_max_of_lt_right (by norm_num)
  have ht2 : (0:ℝ) < max t2 1e-5 := lt_max_of_lt_right (by norm_num)
  have he1 : Real.exp (-tr / max t1 1e-5) ≤ 1 :=
    Real.exp_le_one_iff.mpr (by
      apply div_nonpos_of_nonpos_of_nonneg <;> [linarith; linarith])
  have he1pos : (0:ℝ) < Real.exp (-tr / max t1 1e-5) := Real.exp_pos _
  have he2 : Real.exp (-te / max t2 1e-5) ≤ 1 :=
    Real.exp_le_one_iff.mpr (by
      apply div_nonpos_of_nonpos_of_nonneg <;> [linarith; linarith])
  have he2pos : (0:ℝ) < Real.exp (-te / max t2 1e-5) := Real.exp_pos _
  have hsin0 := sin_radians_nonneg fa hfa0 hfa1
  have hsin1 : Real.sin (radians fa) ≤ 1 := Real.sin_le_one _
  have h1e : (0:ℝ) ≤ 1 - Real.exp (-tr / max t1 1e-5) := by linarith
  have hstep1 : pd * (1 - Real.exp (-tr / max t1 1e-5)) ≤ pd :=
    mul_le_of_le_one_right hpd (by linarith)
  have hstep2 : pd * (1 - Real.exp (-tr / max t1 1e-5)) * Real.sin (radians fa)
      ≤ pd * (1 - Real.exp (-tr / max t1 1e-5)) :=
    mul_le_of_le_one_right (mul_nonneg hpd h1e) hsin1
  have hnum : pd * (1 - Real.exp (-tr / max t1 1e-5)) * Real.sin (radians fa)
      ≤ pd := le_trans hstep2 hstep1
  have hnum0 : 0 ≤ pd * (1 - Real.exp (-tr / max t1 1e-5))
      * Real.sin (radians fa) := mul_nonneg (mul_nonneg hpd h1e) hsin0
  have hden := css_denominator_pos t1 tr fa htr
  have hdenge : (1e-9 : ℝ) ≤ 1 - Real.exp (-tr / max t1 1e-5)
      * Real.cos (radians fa) + 1e-9 := by
    have hcos : Real.cos (radians fa) ≤ 1 := Real.cos_le_one _
    nlinarith
  have hq : pd * (1 - Real.exp (-tr / max t1 1e-5)) * Real.sin (radians fa)
      / (1 - Real.exp (-tr / max t1 1e-5) * Real.cos (radians fa) + 1e-9)
      ≤ pd * 10 ^ 9 := by
    rw [div_le_iff₀ hden]
    have h1 : pd * 10 ^ 9 * 1e-9 = pd := by norm_num [mul_assoc]
    nlinarith
  have hq0 : 0 ≤ pd * (1 - Real.exp (-tr / max t1 1e-5))
      * Real.sin (radians fa)
      / (1 - Real.exp (-tr / max t1 1e-5) * Real.cos (radians fa) + 1e-9) :=
    div_nonneg hnum0 (le_of_lt hden)
  calc pd * (1 - Real.exp (-tr / max t1 1e-5)) * Real.sin (radians fa)
      / (1 - Real.exp (-tr / max t1 1e-5) * Real.cos (radians fa) + 1e-9)
      * Real.exp (-te / max t2 1e-5)
      ≤ pd * (1 - Real.exp (-tr / max t1 1e-5)) * Real.sin (radians fa)
      / (1 - Real.exp (-tr / max t1 1e-5) * Real.cos (radians fa) + 1e-9)
      * 1 := by nlinarith
    _ ≤ pd * 10 ^ 9 := by rw [mul_one]; exact hq

/-- C3: for every T1 > 0, T2 > 0, PD ≥ 0, TR ≥ 0, TE ≥ 0 and FA ∈ (0, 180)
degrees, the steady-state signal is non-negative and finite (bounded by the
explicit bound PD · 10⁹). -/
theorem steady_state_finite_nonneg (t1 t2 pd tr te fa : ℝ)
    (ht1 : 0 < t1) (ht2 : 0 < t2) (hpd : 0 ≤ pd) (htr : 0 ≤ tr)
    (hte : 0 ≤ te) (hfa0 : 0 < fa) (hfa1 : fa < 180) :
    0 ≤ calculate_signal_steady_state t1 t2 pd tr te fa ∧
    calculate_signal_steady_state t1 t2 pd tr te fa ≤ pd * 10 ^ 9 :=
  ⟨css_nonneg t1 t2 pd tr te fa hpd htr (le_of_lt hfa0) (le_of_lt hfa1),
   css_le_bound t1 t2 pd tr te fa hpd htr hte (le_of_lt hfa0) (le_of_lt hfa1)⟩

/-- Witness for C3 at T1 = T2 = 1, PD = 1, TR = TE = 0, FA = 90. -/
theorem steady_state_finite_nonneg_witness :
    ((0:ℝ) < 1 ∧ (0:ℝ) ≤ 1 ∧ (0:ℝ) < 90 ∧ (90:ℝ) < 180) ∧
    (0 ≤ calculate_signal_steady_state 1 1 1 0 0 90 ∧
      calculate_signal_steady_state 1 1 1 0 0 90 ≤ 1 * 10 ^ 9) :=
  ⟨⟨by norm_num, by norm_num, by norm_num, by norm_num⟩,
    steady_state_finite_nonneg 1 1 1 0 0 90 (by norm_num) (by norm_num)
      (by norm_num) (by norm_num) (by norm_num) (by norm_num) (by norm_num)⟩

/-- C4: the inversion-recovery signal is exactly
|PD · (1 - 2·exp(-TI/T1) + exp(-TR/T1)) · sin(FA) · exp(-TE/T2)|, and the
longitudinal term with the exp(-TR/T1) contribution neglected (the TR = ∞
approximation) changes sign at TI = T1·ln 2: negative below, positive
above. -/
theorem inversion_recovery_null_point (t1 t2 pd tr te ti fa : ℝ)
    (ht1 : 0 < t1) :
    inversion_recovery t1 t2 pd tr te ti fa
        = |pd * (1 - 2 * Real.exp (-ti / t1) + Real.exp (-tr / t1))
            * Real.sin (fa * (Real.pi / 180)) * Real.exp (-te / t2)| ∧
    (ti < t1 * Real.log 2 → mz_ti t1 tr ti - Real.exp (-tr / t1) < 0) ∧
    (t1 * Real.log 2 < ti → 0 < mz_ti t1 tr ti - Real.exp (-tr / t1)) := by
  refine ⟨rfl, ?_, ?_⟩
  · intro hti
    have h2 : Real.exp (-ti / t1) > Real.exp (-Real.log 2) := by
      apply Real.exp_lt_exp.mpr
      rw [neg_div, neg_lt_neg_iff]
      rw [div_lt_iff₀ ht1]
      linarith [hti]
    have hlog : Real.exp (-Real.log 2) = 1 / 2 := by
      rw [Real.exp_neg, Real.exp_log] <;> norm_num
    unfold mz_ti
    rw [hlog] at h2
    linarith
  · intro hti
    have h2 : Real.exp (-ti / t1) < Real.exp (-Real.log 2) := by
      apply Real.exp_lt_exp.mpr
      rw [neg_div, neg_lt_neg_iff]
      rw [lt_div_iff₀ ht1]
      linarith [hti]
    have hlog : Real.exp (-Real.log 2) = 1 / 2 := by
      rw [Real.exp_neg, Real.exp_log] <;> norm_num
    unfold mz_ti
    rw [hlog] at h2
    linarith

/-- Witness for C4 at T1 = 1 (and arbitrary concrete values elsewhere). -/
theorem inversion_recovery_null_point_witness :
    (0:ℝ) < 1 ∧
    (inversion_recovery 1 1 1 500 20 0 90
        = |(1:ℝ) * (1 - 2 * Real.exp (-0 / 1) + Real.exp (-500 / 1))
            * Real.sin (90 * (Real.pi / 180)) * Real.exp (-20 / 1)| ∧
     ((0:ℝ) < 1 * Real.log 2 → mz_ti 1 500 0 - Real.exp (-500 / 1) < 0) ∧
     ((1:ℝ) * Real.log 2 < 0 → 0 < mz_ti 1 500 0 - Real.exp (-500 / 1))) :=
  ⟨by norm_num, inversion_recovery_null_point 1 1 1 500 20 0 90 (by norm_num)⟩

/-! ### IEEE-style extended values for the NaN/Inf scrubbing behaviour

The claims about np.nan_to_num concern IEEE special values, which exact
reals cannot represent.  `NF` extends ℝ with +Inf, -Inf and NaN and gives
the arithmetic the IEEE semantics numpy uses (division of a nonzero finite
value by zero yields a signed infinity, 0/0 and Inf-Inf yield NaN, NaN
propagates).  Overflow of large finite values is not modelled; infinities
arise here exactly from the operations that create them symbolically. -/
inductive NF where
  | fin (x : ℝ)
  | pinf
  | ninf
  | nan

/-- IEEE negation. -/
noncomputable def NF.neg : NF → NF
  | .fin x => .fin (-x)
  | .pinf => .ninf
  | .ninf => .pinf
  | .nan => .nan

/-- IEEE addition: Inf + (-Inf) is NaN, NaN propagates. -/
noncomputable def NF.add : NF → NF → NF
  | .nan, _ => .nan
  | _, .nan => .nan
  | .pinf, .ninf => .nan
  | .ninf, .pinf => .nan
  | .pinf, _ => .pinf
  | _, .pinf => .pinf
  | .ninf, _ => .ninf
  | _, .ninf => .ninf
  | .fin a, .fin b => .fin (a + b)

/-- IEEE subtraction. -/
noncomputable def NF.sub (a b : NF) : NF := NF.add a (NF.neg b)

open Classical in
/-- IEEE multiplication: 0 · Inf is NaN, signs propagate, NaN propagates. -/
noncomputable def NF.mul : NF → NF → NF
  | .nan, _ => .nan
  | _, .nan => .nan
  | .fin a, .fin b => .fin (a * b)
  | .fin a, .pinf => if a = 0 then .nan else if 0 < a then .pinf else .ninf
  | .pinf, .fin a => if a = 0 then .nan else if 0 < a then .pinf else .ninf
  | .fin a, .ninf => if a = 0 then .nan else if 0 < a then .ninf else .pinf
  | .ninf, .fin a => if a = 0 then .nan else if 0 < a then .ninf else .pinf
  | .pinf, .pinf => .pinf
  | .pinf, .ninf => .ninf
  | .ninf, .pinf => .ninf
  | .ninf, .ninf => .pinf

open Classical in
/-- IEEE division (with the +0 convention numpy arrives at here): a nonzero
finite value divided by zero gives an infinity carrying the numerator sign,
0/0 gives NaN, Inf/Inf gives NaN, finite/Inf gives 0. -/
noncomputable def NF.div : NF → NF → NF
  | .nan, _ => .nan
  | _, .nan => .nan
  | .fin a, .fin b =>
      if b = 0 then (if a = 0 then .nan else if 0 < a then .pinf else .ninf)
      else .fin (a / b)
  | .fin _, .pinf => .fin 0
  | .fin _, .ninf => .fin 0
  | .pinf, .fin b => if 0 ≤ b then .pinf else .ninf
  | .ninf, .fin b => if 0 ≤ b then .ninf else .pinf
  | .pinf, .pinf => .nan
  | .pinf, .ninf => .nan
  | .ninf, .pinf => .nan
  | .ninf, .ninf => .nan

/-- IEEE exponential: exp(-Inf) = 0, exp(+Inf) = +Inf, NaN propagates. -/
noncomputable def NF.exp : NF → NF
  | .fin x => .fin (Real.exp x)
  | .pinf => .pinf
  | .ninf => .fin 0
  | .nan => .nan

/-- IEEE sine: sin(±Inf) is NaN. -/
noncomputable def NF.sin : NF → NF
  | .fin x => .fin (Real.sin x)
  | _ => .nan

/-- IEEE cosine: cos(±Inf) is NaN. -/
noncomputable def NF.cos : NF → NF
  | .fin x => .fin (Real.cos x)
  | _ => .nan

/-- IEEE absolute value. -/
noncomputable def NF.abs : NF → NF
  | .fin x => .fin |x|
  | .nan => .nan
  | _ => .pinf

/-- np.maximum: NaN propagates, otherwise the larger value. -/
noncomputable def NF.nmax : NF → NF → NF
  | .nan, _ => .nan
  | _, .nan => .nan
  | .pinf, _ => .pinf
  | _, .pinf => .pinf
  | .ninf, b => b
  | a, .ninf => a
  | .fin a, .fin b => .fin (max a b)

/-- Largest finite IEEE double: the value np.nan_to_num substitutes for
+Inf by default (and its negation for -Inf). -/
noncomputable def floatMax : ℝ := 1.7976931348623157e308

/-- Model of np.nan_to_num with default arguments: NaN becomes 0, +Inf
becomes the largest finite double, -Inf its negation, finite values pass
through. -/
noncomputable def NF.nanToNum : NF → NF
  | .fin x => .fin x
  | .pinf => .fin floatMax
  | .ninf => .fin (-floatMax)
  | .nan => .fin 0

/-- The value is a finite float. -/
def NF.isFin : NF → Prop
  | .fin _ => True
  | _ => False

/-- Float-level model of MRIPhysics.calculate_signal_steady_state before the
final np.nan_to_num (MRI_core.py lines 78-87). -/
noncomputable def calculate_signal_steady_state_raw_nf
    (t1 t2 pd tr te fa_deg : NF) : NF :=
  let fa_rad := NF.mul fa_deg (NF.fin (Real.pi / 180))
  let t1c := NF.nmax t1 (NF.fin 1e-5)
  let t2c := NF.nmax t2 (NF.fin 1e-5)
  let e1 := NF.exp (NF.div (NF.neg tr) t1c)
  let e2 := NF.exp (NF.div (NF.neg te) t2c)
  let numerator := NF.mul (NF.mul pd (NF.sub (NF.fin 1) e1)) (NF.sin fa_rad)
  let denominator := NF.sub (NF.fin 1) (NF.mul e1 (NF.cos fa_rad))
  NF.mul (NF.div numerator (NF.add denominator (NF.fin 1e-9))) e2

/-- Float-level model of the full calculate_signal_steady_state including
the np.nan_to_num scrub on line 88. -/
noncomputable def calculate_signal_steady_state_nf
    (t1 t2 pd tr te fa_deg : NF) : NF :=
  NF.nanToNum (calculate_signal_steady_state_raw_nf t1 t2 pd tr te fa_deg)

/-- Float-level model of MRIPhysics.inversion_recovery before the final
np.nan_to_num (MRI_core.py lines 104-109). -/
noncomputable def inversion_recovery_raw_nf
    (t1 t2 pd tr te ti fa_deg : NF) : NF :=
  let fa_rad := NF.mul fa_deg (NF.fin (Real.pi / 180))
  let mz := NF.add (NF.sub (NF.fin 1)
      (NF.mul (NF.fin 2) (NF.exp (NF.div (NF.neg ti) t1))))
    (NF.exp (NF.div (NF.neg tr) t1))
  NF.abs (NF.mul (NF.mul (NF.mul pd mz) (NF.sin fa_rad))
    (NF.exp (NF.div (NF.neg te) t2)))

/-- Float-level model of the full inversion_recovery including the
np.nan_to_num scrub on line 110. -/
noncomputable def inversion_recovery_nf
    (t1 t2 pd tr te ti fa_deg : NF) : NF :=
  NF.nanToNum (inversion_recovery_raw_nf t1 t2 pd tr te ti fa_deg)

lemma nanToNum_isFin (v : NF) : NF.isFin (NF.nanToNum v) := by
  cases v <;> simp [NF.nanToNum, NF.isFin]

lemma NF.neg_fin (x : ℝ) : NF.neg (.fin x) = .fin (-x) := rfl

lemma NF.add_fin_fin (a b : ℝ) : NF.add (.fin a) (.fin b) = .fin (a + b) := rfl

lemma NF.sub_fin_fin (a b : ℝ) : NF.sub (.fin a) (.fin b) = .fin (a + -b) := rfl

lemma NF.mul_fin_fin (a b : ℝ) : NF.mul (.fin a) (.fin b) = .fin (a * b) := rfl

lemma NF.mul_ninf_fin (a : ℝ) : NF.mul .ninf (.fin a)
    = if a = 0 then .nan else if 0 < a then .ninf else .pinf := rfl

lemma NF.div_fin_fin (a b : ℝ) : NF.div (.fin a) (.fin b)
    = if b = 0 then (if a = 0 then .nan else if 0 < a then .pinf else .ninf)
      else .fin (a / b) := rfl

lemma NF.exp_fin (x : ℝ) : NF.exp (.fin x) = .fin (Real.exp x) := rfl

lemma NF.sin_fin (x : ℝ) : NF.sin (.fin x) = .fin (Real.sin x) := rfl

lemma NF.cos_fin (x : ℝ) : NF.cos (.fin x) = .fin (Real.cos x) := rfl

lemma NF.nmax_fin_fin (a b : ℝ) : NF.nmax (.fin a) (.fin b) = .fin (max a b) := rfl

/-- C5 (amended): in both signal computations every NaN is replaced with 0,
but every Inf is replaced with the largest finite double (±1.7976…e308),
not with 0; the returned values are therefore always finite floats. -/
theorem nan_inf_scrubbing (t1 t2 pd tr te ti fa : NF) :
    NF.isFin (calculate_signal_steady_state_nf t1 t2 pd tr te fa) ∧
    NF.isFin (inversion_recovery_nf t1 t2 pd tr te ti fa) ∧
    NF.nanToNum NF.nan = NF.fin 0 ∧
    NF.nanToNum NF.pinf = NF.fin floatMax ∧
    NF.nanToNum NF.ninf = NF.fin (-floatMax) ∧
    calculate_signal_steady_state_nf t1 t2 pd tr te fa
      = NF.nanToNum (calculate_signal_steady_state_raw_nf t1 t2 pd tr te fa) ∧
    inversion_recovery_nf t1 t2 pd tr te ti fa
      = NF.nanToNum (inversion_recovery_raw_nf t1 t2 pd tr te ti fa) :=
  ⟨nanToNum_isFin _, nanToNum_isFin _, rfl, rfl, rfl, rfl, rfl⟩

/-- Counterexample for C5 as stated: at T1 = T2 = PD = 1, TE = 0, FA = 60°
and TR = -ln(2 + 2·10⁻⁹), the epsilon-shifted denominator is exactly zero,
the raw steady-state signal is -Inf, and np.nan_to_num returns the large
finite value -1.7976…e308 rather than 0. -/
theorem nan_inf_scrubbing_counterexample :
    calculate_signal_steady_state_raw_nf (.fin 1) (.fin 1) (.fin 1)
        (.fin (-(Real.log (2 + 2e-9)))) (.fin 0) (.fin 60) = NF.ninf ∧
    calculate_signal_steady_state_nf (.fin 1) (.fin 1) (.fin 1)
        (.fin (-(Real.log (2 + 2e-9)))) (.fin 0) (.fin 60)
      = NF.fin (-floatMax) ∧
    (NF.fin (-floatMax) : NF) ≠ NF.fin 0 := by
  have hlogpos : (0:ℝ) < 2 + 2e-9 := by norm_num
  have hexp : Real.exp (Real.log (2 + 2e-9)) = 2 + 2e-9 := Real.exp_log hlogpos
  have hmax1 : max (1:ℝ) 1e-5 = 1 := max_eq_left (by norm_num)
  have hrad : (60:ℝ) * (Real.pi / 180) = Real.pi / 3 := by ring
  have hsin : Real.sin ((60:ℝ) * (Real.pi / 180)) = Real.sqrt 3 / 2 := by
    rw [hrad, Real.sin_pi_div_three]
  have hcos : Real.cos ((60:ℝ) * (Real.pi / 180)) = 1 / 2 := by
    rw [hrad, Real.cos_pi_div_three]
  have hsqrt3 : (0:ℝ) < Real.sqrt 3 := Real.sqrt_pos.mpr (by norm_num)
  have hnumlt : (1:ℝ) * (1 + -(2 + 2e-9)) * (Real.sqrt 3 / 2) < 0 := by
    nlinarith
  have hne : ¬((1:ℝ) * (1 + -(2 + 2e-9)) * (Real.sqrt 3 / 2) = 0) :=
    ne_of_lt hnumlt
  have hnl : ¬((0:ℝ) < 1 * (1 + -(2 + 2e-9)) * (Real.sqrt 3 / 2)) :=
    not_lt.mpr (le_of_lt hnumlt)
  have hden : ((1:ℝ) + -((2 + 2e-9) * (1 / 2)) + 1e-9) = 0 := by norm_num
  have hraw : calculate_signal_steady_state_raw_nf (.fin 1) (.fin 1) (.fin 1)
      (.fin (-(Real.log (2 + 2e-9)))) (.fin 0) (.fin 60) = NF.ninf := by
    unfold calculate_signal_steady_state_raw_nf
    simp only [NF.neg_fin, neg_neg, neg_zero, NF.nmax_fin_fin, hmax1,
      NF.mul_fin_fin, NF.div_fin_fin,
      eq_false (one_ne_zero : (1:ℝ) ≠ 0), if_false, div_one, zero_div,
      NF.exp_fin, hexp, Real.exp_zero, NF.sin_fin, NF.cos_fin, hsin, hcos,
      NF.sub_fin_fin, NF.add_fin_fin, hden, eq_self_iff_true, if_true,
      eq_false hne, eq_false hnl, NF.mul_ninf_fin,
      eq_true (show (0:ℝ) < 1 by norm_num)]
  refine ⟨hraw, ?_, ?_⟩
  · unfold calculate_signal_steady_state_nf
    rw [hraw]
    rfl
  · intro h
    have hfm : (0:ℝ) < floatMax := by unfold floatMax; norm_num
    have := NF.fin.inj h
    linarith

/-! ### Default phantom and slice-count queries -/

/-- np.linspace(a, b, n): n evenly spaced points from a to b. -/
noncomputable def linspace (a b : ℝ) (n : ℕ) : List ℝ :=
  (List.range n).map (fun (i : ℕ) => a + (b - a) * (i:ℝ) / ((n:ℝ) - 1))

open Classical in
/-- Per-voxel values of MRIPhysics.generate_synthetic_phantom (MRI_core.py
lines 39-70): meshgrid coordinates x (along axis 1) and y (along axis 0)
normalised to [-1,1], a per-slice shrink factor floored at 0, and the
brain / gray-ring / ventricle masks with later assignments overwriting
earlier ones.  Returns the (T1, T2, PD) triple of the voxel (i, j, z). -/
noncomputable def phantomVals (dim0 dim1 dim2 : ℕ) (i j z : ℕ) : ℝ × ℝ × ℝ :=
  let x := (linspace (-1) 1 dim1).getD j 0
  let y := (linspace (-1) 1 dim0).getD i 0
  let scale0 := 1 - |(z:ℝ) - ((dim2 / 2 : ℕ) : ℝ)| * 0.05
  let scale := if scale0 < 0 then 0 else scale0
  let brain := x ^ 2 + y ^ 2 < 0.85 * scale
  let vent := (|x| < 0.2 ∧ |y| < 0.4) ∧ brain
  let gray := brain ∧ x ^ 2 + y ^ 2 > 0.5 * scale
  (if vent then 3000.0 else if gray then 950.0 else if brain then 600.0 else 0,
   if vent then 2000.0 else if gray then 100.0 else if brain then 70.0 else 0,
   if vent then 1.0 else if gray then 0.85 else if brain then 0.70 else 0)

/-- Builds a volume of shape (d0, d1, d2) from a per-voxel value function. -/
noncomputable def mkVol (d0 d1 d2 : ℕ) (f : ℕ → ℕ → ℕ → ℝ) : Vol :=
  (List.range d0).map (fun i => (List.range d1).map (fun j =>
    (List.range d2).map (fun z => f i j z)))

/-- Model of MRIPhysics.generate_synthetic_phantom: the three parameter
volumes of shape (d0, d1, d2), default (128, 128, 20). -/
noncomputable def generate_synthetic_phantom (d0 d1 d2 : ℕ) : Vol × Vol × Vol :=
  (mkVol d0 d1 d2 (fun i j z => (phantomVals d0 d1 d2 i j z).1),
   mkVol d0 d1 d2 (fun i j z => (phantomVals d0 d1 d2 i j z).2.1),
   mkVol d0 d1 d2 (fun i j z => (phantomVals d0 d1 d2 i j z).2.2))

/-- Volume shape component 0. -/
def shape0 (v : Vol) : ℕ := v.length

/-- Volume shape component 1. -/
def shape1 (v : Vol) : ℕ := (v.headD []).length

/-- Volume shape component 2. -/
def shape2 (v : Vol) : ℕ := ((v.headD []).headD []).length

/-- Model of MRISimulatorModel.get_max_slice (MRI_core.py lines 133-139):
0 when no volume is loaded, otherwise shape[0] for coronal, shape[1] for
sagittal, shape[2] for any other plane string (axial). -/
def get_max_slice (t1_vol : Option Vol) (plane : String) : ℕ :=
  match t1_vol with
  | none => 0
  | some v =>
    if plane = "coronal" then shape0 v
    else if plane = "sagittal" then shape1 v
    else shape2 v

lemma headD_map_range {α : Type} (n : ℕ) (g : ℕ → α) (d : α) (h : 0 < n) :
    ((List.range n).map g).headD d = g 0 := by
  cases n with
  | zero => omega
  | succ m => rw [List.range_succ_eq_map]; simp

lemma rect3_mkVol (d0 d1 d2 : ℕ) (f : ℕ → ℕ → ℕ → ℝ) :
    Rect3 (mkVol d0 d1 d2 f) d0 d1 d2 := by
  refine ⟨by simp [mkVol], fun p hp => ?_⟩
  simp only [mkVol, List.mem_map] at hp
  obtain ⟨i, hi, rfl⟩ := hp
  refine ⟨by simp, fun r hr => ?_⟩
  simp only [List.mem_map] at hr
  obtain ⟨j, hj, rfl⟩ := hr
  simp

lemma shape_mkVol (d0 d1 d2 : ℕ) (f : ℕ → ℕ → ℕ → ℝ)
    (h0 : 0 < d0) (h1 : 0 < d1) :
    shape0 (mkVol d0 d1 d2 f) = d0 ∧ shape1 (mkVol d0 d1 d2 f) = d1 ∧
    shape2 (mkVol d0 d1 d2 f) = d2 := by
  refine ⟨by simp [shape0, mkVol], ?_, ?_⟩
  · unfold shape1 mkVol
    rw [headD_map_range d0 _ _ h0]
    simp
  · unfold shape2 mkVol
    rw [headD_map_range d0 _ _ h0, headD_map_range d1 _ _ h1]
    simp

/-- C9: get_max_slice returns the extent along the slice axis (shape[0] for
coronal, shape[1] for sagittal, shape[2] for axial), 0 with no volume, and
on the generated default phantom of shape (128,128,20) it returns 20 for
axial, 128 for sagittal and 128 for coronal. -/
theorem get_max_slice_spec (v : Vol) (d0 d1 d2 : ℕ) (plane : String)
    (hv : Rect3 v d0 d1 d2) (hd0 : 0 < d0) (hd1 : 0 < d1) :
    get_max_slice none plane = 0 ∧
    get_max_slice (some v) "coronal" = d0 ∧
    get_max_slice (some v) "sagittal" = d1 ∧
    get_max_slice (some v) "axial" = d2 ∧
    get_max_slice (some (generate_synthetic_phantom 128 128 20).1) "axial"
        = 20 ∧
    get_max_slice (some (generate_synthetic_phantom 128 128 20).1) "sagittal"
        = 128 ∧
    get_max_slice (some (generate_synthetic_phantom 128 128 20).1) "coronal"
        = 128 := by
  obtain ⟨hlen, hin⟩ := hv
  have hs0 : shape0 v = d0 := hlen
  have hs1 : shape1 v = d1 := by
    cases v with
    | nil => simp [shape0] at hs0; omega
    | cons p l => exact (hin p (by simp)).1
  have hs2 : shape2 v = d2 := by
    cases v with
    | nil => simp [shape0] at hs0; omega
    | cons p l =>
      obtain ⟨hp1, hp2⟩ := hin p (by simp)
      cases p with
      | nil => simp at hp1; omega
      | cons r q => exact hp2 r (by simp)
  obtain ⟨hp0, hp1, hp2⟩ := shape_mkVol 128 128 20
    (fun i j z => (phantomVals 128 128 20 i j z).1) (by norm_num) (by norm_num)
  refine ⟨rfl, ?_, ?_, ?_, ?_, ?_, ?_⟩
  · simp [get_max_slice, hs0]
  · simp [get_max_slice, hs1]
  · simp [get_max_slice, hs2]
  · simp [get_max_slice, generate_synthetic_phantom, hp2]
  · simp [get_max_slice, generate_synthetic_phantom, hp1]
  · simp [get_max_slice, generate_synthetic_phantom, hp0]

/-- Witness for C9 at a concrete 1×1×1 volume. -/
theorem get_max_slice_spec_witness :
    Rect3 [[[ (0:ℝ) ]]] 1 1 1 ∧ 0 < 1 ∧
    (get_max_slice none "axial" = 0 ∧
     get_max_slice (some [[[ (0:ℝ) ]]]) "coronal" = 1 ∧
     get_max_slice (some [[[ (0:ℝ) ]]]) "sagittal" = 1 ∧
     get_max_slice (some [[[ (0:ℝ) ]]]) "axial" = 1 ∧
     get_max_slice (some (generate_synthetic_phantom 128 128 20).1) "axial"
        = 20 ∧
     get_max_slice (some (generate_synthetic_phantom 128 128 20).1) "sagittal"
        = 128 ∧
     get_max_slice (some (generate_synthetic_phantom 128 128 20).1) "coronal"
        = 128) :=
  ⟨by simp [Rect3], by norm_num,
    get_max_slice_spec [[[ (0:ℝ) ]]] 1 1 1 "axial"
      (by simp [Rect3]) (by norm_num) (by norm_num)⟩

/-! ### Volume import (MRISimulatorModel.load_mat_file)

The .mat container is modelled as an association list from key strings to
values, where a value is either a plain numeric array or a MRiLab-style
VObj structured record with optional T1/T2/Rho/PD fields.  Python exception
flow is modelled explicitly: an access that would raise (a missing VObj
field, astype on a structured value, np.max on an empty array) ends the
corresponding path with the mutations performed up to that point, mirroring
the try/except structure of lines 141-184. -/

/-- The three stored parameter volumes of MRISimulatorModel. -/
structure SimState where
  t1_vol : Vol
  t2_vol : Vol
  pd_vol : Vol

/-- MRiLab VObj structured record: optional named sub-arrays. -/
structure VObjRec where
  T1 : Option Vol
  T2 : Option Vol
  Rho : Option Vol
  PD : Option Vol

/-- One value stored in a .mat container. -/
inductive MatVal where
  | arr (v : Vol)
  | strct (r : VObjRec)

/-- A parsed .mat file: keys in insertion order, as scipy.io.loadmat gives
them. -/
abbrev MatFile : Type := List (String × MatVal)

/-- Dictionary lookup. -/
def lookupMat (mat : MatFile) (k : String) : Option MatVal :=
  (mat.find? (fun kv => kv.1 = k)).map Prod.snd

/-- Python str.lower on the key strings. -/
def lowerStr (s : String) : String := ⟨s.data.map Char.toLower⟩

/-- np.ones_like: an all-ones volume of the same shape. -/
def onesLike (v : Vol) : Vol :=
  v.map (fun p => p.map (fun r => r.map (fun _ => (1:ℝ))))

/-- np.nan_to_num over a volume.  In the exact-real embedding every entry is
finite, so each entry maps through unchanged (the behaviour on IEEE special
values is modelled separately by NF.nanToNum). -/
def nanToNumVol (v : Vol) : Vol :=
  v.map (fun p => p.map (fun r => r.map (fun x => x)))

/-- All entries of a volume in a flat list (for np.max, which raises on a
zero-size array). -/
def volFlatten (v : Vol) : List ℝ := (v.map (fun p => p.flatten)).flatten

/-- Elementwise scaling, modelling vol *= 1000.0. -/
def scaleVol (c : ℝ) (v : Vol) : Vol :=
  v.map (fun p => p.map (fun r => r.map (fun x => x * c)))

open Classical in
/-- Post-parse processing of load_mat_file (MRI_core.py lines 171-180):
scrub NaN in all three volumes, then if np.max(t1) < 10 convert T1 and T2
from seconds to milliseconds.  np.max raises on an empty array; the outer
except then reports failure with the scrubbed volumes already stored. -/
noncomputable def finishLoad (st : SimState) : SimState × Bool × String :=
  let t1 := nanToNumVol st.t1_vol
  let t2 := nanToNumVol st.t2_vol
  let pd := nanToNumVol st.pd_vol
  match volFlatten t1 with
  | [] => (⟨t1, t2, pd⟩, false, "zero-size array to reduction operation")
  | x :: xs =>
    if xs.foldl max x < 10 then
      (⟨scaleVol 1000.0 t1, scaleVol 1000.0 t2, pd⟩, true, "Loaded")
    else (⟨t1, t2, pd⟩, true, "Loaded")

/-- Model of MRISimulatorModel.load_mat_file (MRI_core.py lines 141-184).
First the VObj schema is tried (field accesses in source order, assigning
self.t1_vol before self.t2_vol, so a record with T1 but no T2 mutates only
t1_vol before its exception is swallowed); if that did not set found, the
flat schema is tried by case-insensitive alias search over the keys; when a
schema matches, finishLoad post-processes, otherwise (False, "No T1/T2") is
returned with whatever partial mutations occurred. -/
noncomputable def load_mat_file (st : SimState) (mat : MatFile) :
    SimState × Bool × String :=
  let vstep : SimState × Bool :=
    match lookupMat mat "VObj" with
    | some (MatVal.strct r) =>
      match r.T1 with
      | none => (st, false)
      | some v1 =>
        match r.T2 with
        | none => ({ st with t1_vol := v1 }, false)
        | some v2 =>
          match r.Rho with
          | some vr => (⟨v1, v2, vr⟩, true)
          | none =>
            match r.PD with
            | some vp => (⟨v1, v2, vp⟩, true)
            | none => (⟨v1, v2, onesLike v1⟩, true)
    | some (MatVal.arr _) => (st, false)
    | none => (st, false)
  match vstep with
  | (st1, true) => finishLoad st1
  | (st1, false) =>
    let keys := mat.map Prod.fst
    match keys.find? (fun k => lowerStr k == "t1" || lowerStr k == "t1_map"),
        keys.find? (fun k => lowerStr k == "t2" || lowerStr k == "t2_map") with
    | some k1, some k2 =>
      match lookupMat mat k1 with
      | some (MatVal.arr v1) =>
        match lookupMat mat k2 with
        | some (MatVal.arr v2) =>
          match keys.find? (fun k => lowerStr k == "rho" || lowerStr k == "pd"
              || lowerStr k == "pd_map") with
          | some kp =>
            match lookupMat mat kp with
            | some (MatVal.arr vp) => finishLoad ⟨v1, v2, vp⟩
            | _ => ({ st1 with t1_vol := v1, t2_vol := v2 }, false,
                "astype error")
          | none => finishLoad ⟨v1, v2, onesLike v1⟩
        | _ => ({ st1 with t1_vol := v1 }, false, "astype error")
      | _ => (st1, false, "astype error")
    | _, _ => (st1, false, "No T1/T2")

lemma nanToNumVol_eq_self (v : Vol) : nanToNumVol v = v := by
  unfold nanToNumVol
  induction v with
  | nil => rfl
  | cons p l ih =>
    simp only [List.map_cons, List.cons.injEq]
    refine ⟨?_, by simpa using ih⟩
    induction p with
    | nil => rfl
    | cons r q ihp =>
      simp only [List.map_cons, List.cons.injEq]
      exact ⟨List.map_id' r, by simpa using ihp⟩

/-- C1 (amended): every invocation of load_mat_file that returns success has
replaced all three stored volumes with values determined by the file alone
(the resulting state is independent of the pre-call state); a failing
invocation, however, may leave a partial replacement behind (see the
counterexample). -/
theorem volume_replacement_on_success (st st' : SimState) (mat : MatFile)
    (h : (load_mat_file st mat).2.1 = true) :
    (load_mat_file st mat).1 = (load_mat_file st' mat).1 ∧
    (load_mat_file st' mat).2.1 = true := by
  unfold load_mat_file at h ⊢
  cases hV : lookupMat mat "VObj" with
  | none =>
    simp only [hV] at h ⊢
    cases h1 : (mat.map Prod.fst).find?
        (fun k => lowerStr k == "t1" || lowerStr k == "t1_map") with
    | none => simp only [h1] at h ⊢; cases h
    | some k1 =>
      cases h2 : (mat.map Prod.fst).find?
          (fun k => lowerStr k == "t2" || lowerStr k == "t2_map") with
      | none => simp only [h1, h2] at h ⊢; cases h
      | some k2 =>
        simp only [h1, h2] at h ⊢
        cases hv1 : lookupMat mat k1 with
        | none => simp only [hv1] at h ⊢; cases h
        | some m1 =>
          cases m1 with
          | strct r => simp only [hv1] at h ⊢; cases h
          | arr v1 =>
            simp only [hv1] at h ⊢
            cases hv2 : lookupMat mat k2 with
            | none => simp only [hv2] at h ⊢; cases h
            | some m2 =>
              cases m2 with
              | strct r => simp only [hv2] at h ⊢; cases h
              | arr v2 =>
                simp only [hv2] at h ⊢
                cases hp : (mat.map Prod.fst).find? (fun k =>
                    lowerStr k == "rho" || lowerStr k == "pd"
                      || lowerStr k == "pd_map") with
                | none => simp only [hp] at h ⊢; exact ⟨by simp, h⟩
                | some kp =>
                  simp only [hp] at h ⊢
                  cases hvp : lookupMat mat kp with
                  | none => simp only [hvp] at h ⊢; cases h
                  | some mp =>
                    cases mp with
                    | strct r => simp only [hvp] at h ⊢; cases h
                    | arr vp => simp only [hvp] at h ⊢; exact ⟨by simp, h⟩
  | some m =>
    cases m with
    | arr v =>
      simp only [hV] at h ⊢
      cases h1 : (mat.map Prod.fst).find?
          (fun k => lowerStr k == "t1" || lowerStr k == "t1_map") with
      | none => simp only [h1] at h ⊢; cases h
      | some k1 =>
        cases h2 : (mat.map Prod.fst).find?
            (fun k => lowerStr k == "t2" || lowerStr k == "t2_map") with
        | none => simp only [h1, h2] at h ⊢; cases h
        | some k2 =>
          simp only [h1, h2] at h ⊢
          cases hv1 : lookupMat mat k1 with
          | none => simp only [hv1] at h ⊢; cases h
          | some m1 =>
            cases m1 with
            | strct r => simp only [hv1] at h ⊢; cases h
            | arr v1 =>
              simp only [hv1] at h ⊢
              cases hv2 : lookupMat mat k2 with
              | none => simp only [hv2] at h ⊢; cases h
              | some m2 =>
                cases m2 with
                | strct r => simp only [hv2] at h ⊢; cases h
                | arr v2 =>
                  simp only [hv2] at h ⊢
                  cases hp : (mat.map Prod.fst).find? (fun k =>
                      lowerStr k == "rho" || lowerStr k == "pd"
                        || lowerStr k == "pd_map") with
                  | none => simp only [hp] at h ⊢; exact ⟨by simp, h⟩
                  | some kp =>
                    simp only [hp] at h ⊢
                    cases hvp : lookupMat mat kp with
                    | none => simp only [hvp] at h ⊢; cases h
                    | some mp =>
                      cases mp with
                      | strct r => simp only [hvp] at h ⊢; cases h
                      | arr vp => simp only [hvp] at h ⊢; exact ⟨by simp, h⟩
    | strct r =>
      cases hT1 : r.T1 with
      | none =>
        simp only [hV, hT1] at h ⊢
        cases h1 : (mat.map Prod.fst).find?
            (fun k => lowerStr k == "t1" || lowerStr k == "t1_map") with
        | none => simp only [h1] at h ⊢; cases h
        | some k1 =>
          cases h2 : (mat.map Prod.fst).find?
              (fun k => lowerStr k == "t2" || lowerStr k == "t2_map") with
          | none => simp only [h1, h2] at h ⊢; cases h
          | some k2 =>
            simp only [h1, h2] at h ⊢
            cases hv1 : lookupMat mat k1 with
            | none => simp only [hv1] at h ⊢; cases h
            | some m1 =>
              cases m1 with
              | strct r2 => simp only [hv1] at h ⊢; cases h
              | arr v1 =>
                simp only [hv1] at h ⊢
                cases hv2 : lookupMat mat k2 with
                | none => simp only [hv2] at h ⊢; cases h
                | some m2 =>
                  cases m2 with
                  | strct r2 => simp only [hv2] at h ⊢; cases h
                  | arr v2 =>
                    simp only [hv2] at h ⊢
                    cases hp : (mat.map Prod.fst).find? (fun k =>
                        lowerStr k == "rho" || lowerStr k == "pd"
                          || lowerStr k == "pd_map") with
                    | none => simp only [hp] at h ⊢; exact ⟨by simp, h⟩
                    | some kp =>
                      simp only [hp] at h ⊢
                      cases hvp : lookupMat mat kp with
                      | none => simp only [hvp] at h ⊢; cases h
                      | some mp =>
                        cases mp with
                        | strct r2 => simp only [hvp] at h ⊢; cases h
                        | arr vp => simp only [hvp] at h ⊢; exact ⟨by simp, h⟩
      | some v1 =>
        cases hT2 : r.T2 with
        | none =>
          simp only [hV, hT1, hT2] at h ⊢
          cases h1 : (mat.map Prod.fst).find?
              (fun k => lowerStr k == "t1" || lowerStr k == "t1_map") with
          | none => simp only [h1] at h ⊢; cases h
          | some k1 =>
            cases h2 : (mat.map Prod.fst).find?
                (fun k => lowerStr k == "t2" || lowerStr k == "t2_map") with
            | none => simp only [h1, h2] at h ⊢; cases h
            | some k2 =>
              simp only [h1, h2] at h ⊢
              cases hv1 : lookupMat mat k1 with
              | none => simp only [hv1] at h ⊢; cases h
              | some m1 =>
                cases m1 with
                | strct r2 => simp only [hv1] at h ⊢; cases h
                | arr w1 =>
                  simp only [hv1] at h ⊢
                  cases hv2 : lookupMat mat k2 with
                  | none => simp only [hv2] at h ⊢; cases h
                  | some m2 =>
                    cases m2 with
                    | strct r2 => simp only [hv2] at h ⊢; cases h
                    | arr w2 =>
                      simp only [hv2] at h ⊢
                      cases hp : (mat.map Prod.fst).find? (fun k =>
                          lowerStr k == "rho" || lowerStr k == "pd"
                            || lowerStr k == "pd_map") with
                      | none => simp only [hp] at h ⊢; exact ⟨by simp, h⟩
                      | some kp =>
                        simp only [hp] at h ⊢
                        cases hvp : lookupMat mat kp with
                        | none => simp only [hvp] at h ⊢; cases h
                        | some mp =>
                          cases mp with
                          | strct r2 => simp only [hvp] at h ⊢; cases h
                          | arr vp =>
                            simp only [hvp] at h ⊢; exact ⟨by simp, h⟩
        | some v2 =>
          cases hR : r.Rho with
          | some vr => simp only [hV, hT1, hT2, hR] at h ⊢; exact ⟨by simp, h⟩
          | none =>
            cases hP : r.PD with
            | some vp => simp only [hV, hT1, hT2, hR, hP] at h ⊢; exact ⟨by simp, h⟩
            | none => simp only [hV, hT1, hT2, hR, hP] at h ⊢; exact ⟨by simp, h⟩

/-- Counterexample for C1 as stated: a .mat file whose VObj record has a T1
field but no T2 field makes load_mat_file replace only t1_vol (the source
assigns self.t1_vol before the access to T2 raises), yet return failure:
a failure return with a partial replacement. -/
theorem volume_replacement_atomic_counterexample :
    (load_mat_file ⟨[[[0]]], [[[0]]], [[[0]]]⟩
        [("VObj", MatVal.strct ⟨some [[[1]]], none, none, none⟩)]).2.1
      = false ∧
    (load_mat_file ⟨[[[0]]], [[[0]]], [[[0]]]⟩
        [("VObj", MatVal.strct ⟨some [[[1]]], none, none, none⟩)]).1.t1_vol
      = [[[1]]] ∧
    (load_mat_file ⟨[[[0]]], [[[0]]], [[[0]]]⟩
        [("VObj", MatVal.strct ⟨some [[[1]]], none, none, none⟩)]).1.t2_vol
      = [[[0]]] ∧
    ([[[(1:ℝ)]]] : Vol) ≠ [[[0]]] := by
  refine ⟨rfl, rfl, rfl, ?_⟩
  simp

/-- Witness for the amended C1 at a concrete flat-schema file loaded from
two different initial states. -/
theorem volume_replacement_on_success_witness :
    (load_mat_file ⟨[[[ (5:ℝ) ]]], [[[5]]], [[[5]]]⟩
        [("t1", MatVal.arr [[[20]]]), ("t2", MatVal.arr [[[30]]])]).2.1
      = true ∧
    ((load_mat_file ⟨[[[ (5:ℝ) ]]], [[[5]]], [[[5]]]⟩
        [("t1", MatVal.arr [[[20]]]), ("t2", MatVal.arr [[[30]]])]).1
      = (load_mat_file ⟨[[[ (7:ℝ) ]]], [[[7]]], [[[7]]]⟩
        [("t1", MatVal.arr [[[20]]]), ("t2", MatVal.arr [[[30]]])]).1 ∧
     (load_mat_file ⟨[[[ (7:ℝ) ]]], [[[7]]], [[[7]]]⟩
        [("t1", MatVal.arr [[[20]]]), ("t2", MatVal.arr [[[30]]])]).2.1
      = true) := by
  have hfin : finishLoad ⟨[[[ (20:ℝ) ]]], [[[30]]], [[[1]]]⟩
      = (⟨[[[ (20:ℝ) ]]], [[[30]]], [[[1]]]⟩, true, "Loaded") := by
    unfold finishLoad
    norm_num [nanToNumVol, volFlatten]
  have hload : load_mat_file ⟨[[[ (5:ℝ) ]]], [[[5]]], [[[5]]]⟩
      [("t1", MatVal.arr [[[20]]]), ("t2", MatVal.arr [[[30]]])]
      = finishLoad ⟨[[[ (20:ℝ) ]]], [[[30]]], [[[1]]]⟩ := rfl
  have h : (load_mat_file ⟨[[[ (5:ℝ) ]]], [[[5]]], [[[5]]]⟩
      [("t1", MatVal.arr [[[20]]]), ("t2", MatVal.arr [[[30]]])]).2.1
      = true := by rw [hload, hfin]
  exact ⟨h, volume_replacement_on_success
    ⟨[[[ (5:ℝ) ]]], [[[5]]], [[[5]]]⟩ ⟨[[[ (7:ℝ) ]]], [[[7]]], [[[7]]]⟩
    [("t1", MatVal.arr [[[20]]]), ("t2", MatVal.arr [[[30]]])] h⟩

/-- C8 (amended): for every flat-schema container with recognized T1 and T2
aliases, no PD-like key, and a non-empty T1 array (np.max raises on an empty
one, see the counterexample), load_mat_file succeeds and stores an all-ones
PD volume of exactly T1's shape. -/
theorem flat_import_pd_defaults_ones (st : SimState) (mat : MatFile)
    (k1 k2 : String) (v1 v2 : Vol)
    (hvobj : lookupMat mat "VObj" = none)
    (ht1 : (mat.map Prod.fst).find?
        (fun k => lowerStr k == "t1" || lowerStr k == "t1_map") = some k1)
    (ht2 : (mat.map Prod.fst).find?
        (fun k => lowerStr k == "t2" || lowerStr k == "t2_map") = some k2)
    (hpd : (mat.map Prod.fst).find? (fun k => lowerStr k == "rho"
        || lowerStr k == "pd" || lowerStr k == "pd_map") = none)
    (hk1 : lookupMat mat k1 = some (MatVal.arr v1))
    (hk2 : lookupMat mat k2 = some (MatVal.arr v2))
    (hne : volFlatten v1 ≠ []) :
    (load_mat_file st mat).2.1 = true ∧
    (load_mat_file st mat).1.pd_vol = onesLike v1 := by
  have hstep : load_mat_file st mat = finishLoad ⟨v1, v2, onesLike v1⟩ := by
    unfold load_mat_file
    simp only [hvobj, ht1, ht2, hk1, hk2, hpd]
  rw [hstep]
  unfold finishLoad
  simp only [nanToNumVol_eq_self]
  cases hf : volFlatten v1 with
  | nil => exact absurd hf hne
  | cons x xs =>
    simp only [hf]
    split <;> exact ⟨rfl, rfl⟩

/-- Witness for the amended C8 at a concrete container with keys T1_Map and
t2 only; the stored PD volume is the all-ones array of T1's 1×1×1 shape. -/
theorem flat_import_pd_defaults_ones_witness :
    lookupMat [("T1_Map", MatVal.arr [[[ (0.5:ℝ) ]]]),
        ("t2", MatVal.arr [[[2]]])] "VObj" = none ∧
    volFlatten [[[ (0.5:ℝ) ]]] ≠ [] ∧
    ((load_mat_file ⟨[[[ (5:ℝ) ]]], [[[5]]], [[[5]]]⟩
        [("T1_Map", MatVal.arr [[[ (0.5:ℝ) ]]]),
          ("t2", MatVal.arr [[[2]]])]).2.1 = true ∧
     (load_mat_file ⟨[[[ (5:ℝ) ]]], [[[5]]], [[[5]]]⟩
        [("T1_Map", MatVal.arr [[[ (0.5:ℝ) ]]]),
          ("t2", MatVal.arr [[[2]]])]).1.pd_vol
       = onesLike [[[ (0.5:ℝ) ]]]) :=
  ⟨rfl, by simp [volFlatten],
    flat_import_pd_defaults_ones ⟨[[[ (5:ℝ) ]]], [[[5]]], [[[5]]]⟩
      [("T1_Map", MatVal.arr [[[ (0.5:ℝ) ]]]), ("t2", MatVal.arr [[[2]]])]
      "T1_Map" "t2" [[[ (0.5:ℝ) ]]] [[[2]]]
      rfl rfl rfl rfl rfl rfl (by simp [volFlatten])⟩

/-- Counterexample for C8 as stated: a container holding T1 and T2 under
recognized aliases and no PD-like key, but with empty arrays; np.max raises
on the zero-size T1 array, so load_mat_file returns failure rather than
succeeding. -/
theorem flat_import_pd_counterexample :
    (([("t1", MatVal.arr []), ("t2", MatVal.arr [])] : MatFile).map
        Prod.fst).find?
        (fun k => lowerStr k == "t1" || lowerStr k == "t1_map")
      = some "t1" ∧
    (([("t1", MatVal.arr []), ("t2", MatVal.arr [])] : MatFile).map
        Prod.fst).find?
        (fun k => lowerStr k == "t2" || lowerStr k == "t2_map")
      = some "t2" ∧
    (([("t1", MatVal.arr []), ("t2", MatVal.arr [])] : MatFile).map
        Prod.fst).find? (fun k => lowerStr k == "rho" || lowerStr k == "pd"
        || lowerStr k == "pd_map")
      = none ∧
    (load_mat_file ⟨[[[0]]], [[[0]]], [[[0]]]⟩
        [("t1", MatVal.arr []), ("t2", MatVal.arr [])]).2.1 = false :=
  ⟨rfl, rfl, rfl, rfl⟩

/-! ### Imaging pipeline (MRISimulatorModel.calculate_image)

scipy.ndimage.zoom / rotate are modelled with their order-1 (bilinear)
interpolation semantics, gaussian_filter1d with its truncated normalised
kernel and reflect boundary, and np.fft.fft2 / fftshift as the direct DFT
with a half-length roll on both axes. -/

/-- Python int(): truncation toward zero. -/
noncomputable def pyTrunc (x : ℝ) : ℤ := if 0 ≤ x then ⌊x⌋ else -⌊-x⌋

/-- Python int(t / 2) for an integer t: truncating halving. -/
def pyHalf (t : ℤ) : ℤ := if 0 ≤ t then t / 2 else -((-t) / 2)

/-- Slice-averaging window of the axial branch (MRI_core.py lines 232-239):
clamped centre slice, half-width max(0, int(thickness/2)), window clipped to
[0, max_slice], and the z_end <= z_start fix-up. -/
def axialWindow (max_slice slice_idx thickness : ℤ) : ℤ × ℤ :=
  let z_center := max 0 (min slice_idx (max_slice - 1))
  let half_thick := max 0 (pyHalf thickness)
  let z_start := max 0 (z_center - half_thick)
  let z_end0 := min max_slice (z_center + half_thick + 1)
  (z_start, if z_end0 ≤ z_start then z_start + 1 else z_end0)

/-- np.mean over the depth slice [a, b) of one voxel column. -/
noncomputable def sliceMean (l : List ℝ) (a b : ℕ) : ℝ :=
  ((l.drop a).take (b - a)).sum / ((l.drop a).take (b - a)).length

/-- Matrix transpose (numpy .T) of a rectangular 2-D array. -/
def transposeImg (img : Img) : Img :=
  (List.range (colsOf img)).map (fun j => img.map (fun r => r.getD j 0))

/-- Extraction and orientation of the 2-D slab for one volume (MRI_core.py
lines 197-243): sagittal takes vol[:, z, :], coronal vol[z, :, :], both then
transposed and flipped along the first axis; axial averages the thickness
window along the depth axis.  The slice axis extent is read from the
volume's own shape (the source reads self.t1_vol.shape; the three volumes
are co-shaped by the §3 invariant). -/
noncomputable def resliceOne (vol : Vol) (view_plane : String)
    (slice_idx thickness : ℤ) : Img :=
  if view_plane ≠ "axial" then
    if view_plane = "sagittal" then
      let z_center := (max 0 (min slice_idx ((shape1 vol : ℤ) - 1))).toNat
      (transposeImg (vol.map (fun p => p.getD z_center []))).reverse
    else
      let z_center := (max 0 (min slice_idx ((shape0 vol : ℤ) - 1))).toNat
      (transposeImg (vol.getD z_center [])).reverse
  else
    let w := axialWindow (shape2 vol : ℤ) slice_idx thickness
    vol.map (fun p => p.map (fun r => sliceMean r w.1.toNat w.2.toNat))

/-- Elementwise combination of three equally-shaped arrays (numpy broadcast
arithmetic of the signal equations). -/
def map3 (f : ℝ → ℝ → ℝ → ℝ) (A B C : Img) : Img :=
  (A.zip (B.zip C)).map (fun ac => (ac.1.zip (ac.2.1.zip ac.2.2)).map
    (fun xyz => f xyz.1 xyz.2.1 xyz.2.2))

/-- Kernel radius of scipy.ndimage.gaussian_filter1d: int(truncate*sigma +
0.5) with the default truncate = 4.0. -/
noncomputable def gaussKernelRadius (sigma : ℝ) : ℤ := pyTrunc (4 * sigma + 0.5)

/-- Normalised Gaussian weights of gaussian_filter1d at offsets
-radius..radius. -/
noncomputable def gaussWeights (sigma : ℝ) : List ℝ :=
  let lw := gaussKernelRadius sigma
  let phis := (List.range (2 * lw + 1).toNat).map
    (fun (n : ℕ) => Real.exp (-(((n:ℤ) - lw : ℤ):ℝ) ^ 2 / (2 * sigma ^ 2)))
  phis.map (fun p => p / phis.sum)

/-- Index mapping of the scipy 'reflect' boundary mode (d c b a | a b c d |
d c b a). -/
def reflectIdx (n : ℕ) (i : ℤ) : ℤ :=
  if n = 0 then 0
  else
    let m := i % (2 * (n:ℤ))
    if m < (n:ℤ) then m else 2 * (n:ℤ) - 1 - m

/-- Entry access with 0 outside the stored rows/columns. -/
def getD2 (img : Img) (i j : ℕ) : ℝ := (img.getD i []).getD j 0

/-- scipy.ndimage.gaussian_filter1d along axis 0 with mode reflect
(MRI_core.py line 259). -/
noncomputable def gaussian_filter1d_axis0 (img : Img) (sigma : ℝ) : Img :=
  let lw := gaussKernelRadius sigma
  let ker := gaussWeights sigma
  (List.range img.length).map (fun (i : ℕ) =>
    (List.range (colsOf img)).map (fun (j : ℕ) =>
      (List.range ker.length).foldr (fun (t : ℕ) acc =>
        acc + ker.getD t 0
          * getD2 img (reflectIdx img.length ((i:ℤ) + (t:ℤ) - lw)).toNat j)
        0))

/-- Pulse-sequence dispatch of calculate_image (MRI_core.py lines 245-262):
substring match on the sequence name against FLAIR / EPI / FSE, anything
else falling back to plain spin-echo; EPI multiplies the gradient-echo
signal by the echo-spacing decay and takes the magnitude, FSE applies the
Gaussian echo-train blur along axis 0 when ETL > 1. -/
noncomputable def seq_signal (seq_type : String) (t1_s t2_s pd_s : Img)
    (tr te ti fa : ℝ) (etl : ℤ) (esp : ℝ) : Img :=
  if "FLAIR".toList <:+: seq_type.toList then
    map3 (fun a b c => inversion_recovery a b c tr te ti fa) t1_s t2_s pd_s
  else if "EPI".toList <:+: seq_type.toList then
    map3 (fun a b c => |gradient_echo a b c tr te fa
      * Real.exp (-esp / (b + 1e-5))|) t1_s t2_s pd_s
  else if "FSE".toList <:+: seq_type.toList then
    if 1 < etl then
      gaussian_filter1d_axis0
        (map3 (fun a b c => spin_echo a b c tr te fa) t1_s t2_s pd_s)
        (((etl:ℝ) * esp) * 0.02)
    else map3 (fun a b c => spin_echo a b c tr te fa) t1_s t2_s pd_s
  else
    map3 (fun a b c => spin_echo a b c tr te fa) t1_s t2_s pd_s

/-- Signed-index entry access, 0 outside (the constant fill of
map_coordinates with cval = 0). -/
def pixZ (img : Img) (i j : ℤ) : ℝ :=
  if 0 ≤ i ∧ 0 ≤ j then getD2 img i.toNat j.toNat else 0

/-- Order-1 (bilinear) spline interpolation of scipy.ndimage at a real
coordinate. -/
noncomputable def bilinear (img : Img) (ci cj : ℝ) : ℝ :=
  (1 - (ci - ⌊ci⌋)) * (1 - (cj - ⌊cj⌋)) * pixZ img ⌊ci⌋ ⌊cj⌋
    + (1 - (ci - ⌊ci⌋)) * (cj - ⌊cj⌋) * pixZ img ⌊ci⌋ (⌊cj⌋ + 1)
    + (ci - ⌊ci⌋) * (1 - (cj - ⌊cj⌋)) * pixZ img (⌊ci⌋ + 1) ⌊cj⌋
    + (ci - ⌊ci⌋) * (cj - ⌊cj⌋) * pixZ img (⌊ci⌋ + 1) (⌊cj⌋ + 1)

/-- scipy.ndimage.zoom with order 1: output shape round(shape * zoom), each
output index mapped to input coordinate i * (in-1)/(out-1) (endpoint to
endpoint; factor 1 when the output axis has a single sample). -/
noncomputable def ndzoom (img : Img) (zh zw : ℝ) : Img :=
  let oh := (round ((img.length : ℝ) * zh)).toNat
  let ow := (round ((colsOf img : ℝ) * zw)).toNat
  (List.range oh).map (fun (i : ℕ) => (List.range ow).map (fun (j : ℕ) =>
    bilinear img
      (if oh ≤ 1 then 0
        else (i:ℝ) * (((img.length : ℝ) - 1) / ((oh:ℝ) - 1)))
      (if ow ≤ 1 then 0
        else (j:ℝ) * (((colsOf img : ℝ) - 1) / ((ow:ℝ) - 1)))))

/-- scipy.ndimage.rotate with reshape = False, order 1 and constant fill:
every output pixel samples the input at the back-rotated coordinate about
the image centre. -/
noncomputable def ndrotate (img : Img) (angle_deg : ℝ) : Img :=
  let c := Real.cos (radians angle_deg)
  let s := Real.sin (radians angle_deg)
  let cih := ((img.length : ℝ) - 1) / 2
  let ciw := ((colsOf img : ℝ) - 1) / 2
  (List.range img.length).map (fun (i : ℕ) => (List.range (colsOf img)).map
    (fun (j : ℕ) => bilinear img
      (c * ((i:ℝ) - cih) + s * ((j:ℝ) - ciw) + cih)
      (-s * ((i:ℝ) - cih) + c * ((j:ℝ) - ciw) + ciw)))

/-- np.fft.fft2: the direct 2-D discrete Fourier transform. -/
noncomputable def fft2 (img : Img) : List (List ℂ) :=
  (List.range img.length).map (fun (u : ℕ) => (List.range (colsOf img)).map
    (fun (v : ℕ) => (((List.range img.length).map (fun (i : ℕ) =>
      (((List.range (colsOf img)).map (fun (j : ℕ) =>
        ((getD2 img i j : ℝ) : ℂ) * Complex.exp (-2 * Real.pi * Complex.I
          * (((u * i : ℕ) : ℂ) / (img.length : ℂ)
            + ((v * j : ℕ) : ℂ) / (colsOf img : ℂ))))).sum))).sum)))

/-- np.roll by k to the right. -/
def rollRight {α : Type} (l : List α) (k : ℕ) : List α :=
  l.drop (l.length - k) ++ l.take (l.length - k)

/-- np.fft.fftshift on a 2-D array: roll both axes by half their length. -/
def fftshift {α : Type} (m : List (List α)) : List (List α) :=
  (rollRight m (m.length / 2)).map (fun r => rollRight r (r.length / 2))

/-- The fixed reference field of view of MRISimulatorModel (240 mm). -/
noncomputable def base_fov : ℝ := 240.0

/-- Geometry tail of calculate_image (MRI_core.py lines 264-308): physical
extents, truncated target pixel sizes, the isotropic (axial) or anisotropic
(MPR) zoom, the optional in-plane rotation, the crop-or-pad to the output
matrix, and the fixed 90° orientation correction of MPR results. -/
noncomputable def geometry_stage (img : Img) (view_plane : String)
    (fov : ℝ) (thickness : ℤ) (gap : ℝ) (matrix_size : ℕ)
    (rotation : ℝ) : Img :=
  let pixels_per_mm := (matrix_size : ℝ) / fov
  let src_phys_h := if view_plane ≠ "axial"
    then (img.length : ℝ) * ((thickness : ℝ) + gap) else base_fov
  let target_h := pyTrunc (src_phys_h * pixels_per_mm)
  let target_w := pyTrunc (base_fov * pixels_per_mm)
  let img_res :=
    if 0 < img.length ∧ 0 < colsOf img then
      if view_plane ≠ "axial" then
        ndzoom img ((target_h : ℝ) / (img.length : ℝ))
          ((target_w : ℝ) / (colsOf img : ℝ))
      else
        ndzoom img ((target_w : ℝ) / (colsOf img : ℝ))
          ((target_w : ℝ) / (colsOf img : ℝ))
    else img
  let img_rot := if rotation ≠ 0 then ndrotate img_res rotation else img_res
  let final0 := crop_or_pad img_rot matrix_size
  if view_plane ≠ "axial" then (transposeImg final0).reverse else final0

/-- Model of MRISimulatorModel.calculate_image (MRI_core.py lines 186-313):
reslice, apply the pulse-sequence equation, run the geometry stage, and
cache the centred 2-D Fourier transform of the final image. -/
noncomputable def calculate_image (vols : Option (Vol × Vol × Vol))
    (seq_type : String) (tr te ti fa : ℝ) (slice_idx : ℤ) (etl : ℤ)
    (esp fov : ℝ) (thickness : ℤ) (gap : ℝ) (matrix_size : ℕ)
    (rotation : ℝ) (view_plane : String) :
    Option (Img × List (List ℂ)) :=
  match vols with
  | none => none
  | some (t1_vol, t2_vol, pd_vol) =>
    let t1_s := resliceOne t1_vol view_plane slice_idx thickness
    let t2_s := resliceOne t2_vol view_plane slice_idx thickness
    let pd_s := resliceOne pd_vol view_plane slice_idx thickness
    let img := seq_signal seq_type t1_s t2_s pd_s tr te ti fa etl esp
    let final := geometry_stage img view_plane fov thickness gap matrix_size
      rotation
    some (final, fftshift (fft2 final))

/-- C10: for every integer thickness (including 0 and negatives) and every
integer slice index over a non-empty volume, the axial averaging window
[z_start, z_end) contains at least one valid slice (it is non-empty and lies
inside [0, max_slice]), and for every thickness ≤ 1 it is exactly the single
clamped centre slice. -/
theorem axial_window_always_nonempty (max_slice slice_idx thickness : ℤ)
    (h : 1 ≤ max_slice) :
    (axialWindow max_slice slice_idx thickness).1
        < (axialWindow max_slice slice_idx thickness).2 ∧
    0 ≤ (axialWindow max_slice slice_idx thickness).1 ∧
    (axialWindow max_slice slice_idx thickness).2 ≤ max_slice ∧
    (thickness ≤ 1 →
      (axialWindow max_slice slice_idx thickness).1
          = max 0 (min slice_idx (max_slice - 1)) ∧
      (axialWindow max_slice slice_idx thickness).2
          = max 0 (min slice_idx (max_slice - 1)) + 1) := by
  simp only [axialWindow, pyHalf]
  split_ifs <;> omega

/-- Witness for C10 at max_slice = 20, slice_idx = 10, thickness = 0. -/
theorem axial_window_always_nonempty_witness :
    (1:ℤ) ≤ 20 ∧
    ((axialWindow 20 10 0).1 < (axialWindow 20 10 0).2 ∧
     0 ≤ (axialWindow 20 10 0).1 ∧
     (axialWindow 20 10 0).2 ≤ 20 ∧
     ((0:ℤ) ≤ 1 →
       (axialWindow 20 10 0).1 = max 0 (min 10 (20 - 1)) ∧
       (axialWindow 20 10 0).2 = max 0 (min 10 (20 - 1)) + 1)) :=
  ⟨by norm_num, axial_window_always_nonempty 20 10 0 (by norm_num)⟩

/-- C7: a sequence name containing none of the substrings FLAIR, EPI, FSE
renders identically to an explicit spin-echo request (the name "SE"), for
every volume and every parameter combination; the unknown name takes the
default branch and never errors. -/
theorem unknown_sequence_defaults_spin_echo (vols : Option (Vol × Vol × Vol))
    (seq_type : String) (tr te ti fa : ℝ) (slice_idx etl : ℤ) (esp fov : ℝ)
    (thickness : ℤ) (gap : ℝ) (matrix_size : ℕ) (rotation : ℝ)
    (view_plane : String)
    (h1 : ¬("FLAIR".toList <:+: seq_type.toList))
    (h2 : ¬("EPI".toList <:+: seq_type.toList))
    (h3 : ¬("FSE".toList <:+: seq_type.toList)) :
    calculate_image vols seq_type tr te ti fa slice_idx etl esp fov thickness
        gap matrix_size rotation view_plane
      = calculate_image vols "SE" tr te ti fa slice_idx etl esp fov thickness
        gap matrix_size rotation view_plane := by
  have hs : ∀ A B C : Img, seq_signal seq_type A B C tr te ti fa etl esp
      = seq_signal "SE" A B C tr te ti fa etl esp := by
    intro A B C
    unfold seq_signal
    rw [if_neg h1, if_neg h2, if_neg h3,
      if_neg (by decide : ¬("FLAIR".toList <:+: "SE".toList)),
      if_neg (by decide : ¬("EPI".toList <:+: "SE".toList)),
      if_neg (by decide : ¬("FSE".toList <:+: "SE".toList))]
  cases vols with
  | none => rfl
  | some v =>
    obtain ⟨a, b, c⟩ := v
    simp only [calculate_image, hs]

/-- Witness for C7 with the sequence name "T1W" on a concrete 1×1×1
volume. -/
theorem unknown_sequence_defaults_spin_echo_witness :
    ¬("FLAIR".toList <:+: "T1W".toList) ∧
    ¬("EPI".toList <:+: "T1W".toList) ∧
    ¬("FSE".toList <:+: "T1W".toList) ∧
    calculate_image (some ([[[ (600:ℝ) ]]], [[[70]]], [[[1]]])) "T1W"
        500 20 0 90 0 1 10 240 1 0 256 0 "axial"
      = calculate_image (some ([[[ (600:ℝ) ]]], [[[70]]], [[[1]]])) "SE"
        500 20 0 90 0 1 10 240 1 0 256 0 "axial" :=
  ⟨by decide, by decide, by decide,
    unknown_sequence_defaults_spin_echo
      (some ([[[ (600:ℝ) ]]], [[[70]]], [[[1]]])) "T1W"
      500 20 0 90 0 1 10 240 1 0 256 0 "axial"
      (by decide) (by decide) (by decide)⟩

/-! ### Shape and sign preservation through the pipeline stages -/

lemma getD_mem_or_default {α : Type} (l : List α) (n : ℕ) (d : α) :
    l.getD n d ∈ l ∨ l.getD n d = d := by
  rcases lt_or_le n l.length with h | h
  · left
    rw [List.getD_eq_getElem l d h]
    exact List.getElem_mem h
  · right
    exact List.getD_eq_default l d h

lemma nonneg_getD (r : List ℝ) (h : ∀ x ∈ r, 0 ≤ x) (j : ℕ) :
    0 ≤ r.getD j 0 := by
  rcases getD_mem_or_default r j 0 with hm | hd
  · exact h _ hm
  · rw [hd]

lemma nonneg_getD2 (img : Img) (hn : NonnegImg img) (i j : ℕ) :
    0 ≤ getD2 img i j := by
  unfold getD2
  rcases getD_mem_or_default img i [] with hm | hd
  · exact nonneg_getD _ (hn _ hm) j
  · rw [hd]
    simp

lemma rect_transposeImg (img : Img) (h w : ℕ) (hr : Rect img h w) :
    Rect (transposeImg img) (if 0 < h then w else 0) h := by
  obtain ⟨hlen, hwid⟩ := hr
  constructor
  · simp only [transposeImg, List.length_map, List.length_range]
    cases img with
    | nil =>
      have h0 : h = 0 := by simpa using hlen.symm
      simp [colsOf, h0]
    | cons r0 l =>
      have hh : 0 < h := by rw [← hlen]; simp
      have hc : colsOf (r0 :: l) = r0.length := by simp [colsOf]
      rw [hc, hwid r0 (by simp), if_pos hh]
  · intro r hr2
    simp only [transposeImg, List.mem_map] at hr2
    obtain ⟨j, hj, rfl⟩ := hr2
    simp [hlen]

lemma nonneg_transposeImg (img : Img) (hn : NonnegImg img) :
    NonnegImg (transposeImg img) := by
  intro r hr x hx
  simp only [transposeImg, List.mem_map] at hr
  obtain ⟨j, hj, rfl⟩ := hr
  simp only [List.mem_map] at hx
  obtain ⟨row, hrow, rfl⟩ := hx
  exact nonneg_getD row (hn row hrow) j

lemma rect_reverse {α : Type} (m : List (List α)) (h w : ℕ)
    (hr : Rect m h w) : Rect m.reverse h w :=
  ⟨by simp [hr.1], fun r hrm => hr.2 r (List.mem_reverse.mp hrm)⟩

lemma nonneg_reverse (m : Img) (hn : NonnegImg m) : NonnegImg m.reverse :=
  fun r hrm => hn r (List.mem_reverse.mp hrm)

lemma rect_resliceOne (v : Vol) (d0 d1 d2 : ℕ) (plane : String) (i t : ℤ)
    (hv : Rect3 v d0 d1 d2) :
    Rect (resliceOne v plane i t)
      (if plane = "axial" then d0
       else if plane = "sagittal" then
        (if 0 < d0 then (if 0 < d1 then d2 else 0) else 0)
       else (if 0 < d0 ∧ 0 < d1 then d2 else 0))
      (if plane = "axial" then d1
       else if plane = "sagittal" then d0
       else (if 0 < d0 then d1 else 0)) := by
  obtain ⟨hlen, hin⟩ := hv
  by_cases hax : plane = "axial"
  · simp only [hax, if_pos rfl, resliceOne, ne_eq, not_true_eq_false,
      if_false]
    constructor
    · simp [hlen]
    · intro r hr
      simp only [List.mem_map] at hr
      obtain ⟨p, hp, rfl⟩ := hr
      simp [(hin p hp).1]
  · by_cases hsag : plane = "sagittal"
    · simp only [hax, hsag, if_neg (by simp : ¬("sagittal" = "axial")),
        if_pos rfl, resliceOne, ne_eq, not_false_eq_true, if_true]
      have hS : Rect (v.map (fun p => p.getD
          ((max 0 (min i ((shape1 v : ℤ) - 1))).toNat) []))
          d0 (if 0 < d1 then d2 else 0) := by
        constructor
        · simp [hlen]
        · intro r hr
          simp only [List.mem_map] at hr
          obtain ⟨p, hp, rfl⟩ := hr
          obtain ⟨hp1, hp2⟩ := hin p hp
          by_cases hd1 : 0 < d1
          · have hsh : shape1 v = d1 := by
              cases v with
              | nil => simp at hp
              | cons p0 l => exact (hin p0 (by simp)).1
            have hz : (max 0 (min i ((shape1 v : ℤ) - 1))).toNat < p.length := by
              rw [hp1]
              omega
            have hm : p.getD ((max 0 (min i ((shape1 v : ℤ) - 1))).toNat) [] ∈ p := by
              rw [List.getD_eq_getElem p [] hz]
              exact List.getElem_mem hz
            rw [if_pos hd1]
            exact hp2 _ hm
          · rw [if_neg hd1]
            have hp0 : p = [] := List.length_eq_zero.mp (by omega)
            simp [hp0]
      have := rect_transposeImg _ _ _ hS
      exact rect_reverse _ _ _ this
    · simp only [resliceOne, hax, hsag, ne_eq, not_false_eq_true, if_true,
        if_neg hsag, if_neg hax]
      have hP : Rect (v.getD ((max 0 (min i ((shape0 v : ℤ) - 1))).toNat) [])
          (if 0 < d0 then d1 else 0) d2 := by
        by_cases hd0 : 0 < d0
        · have hsh : shape0 v = d0 := hlen
          have hlv : v.length = d0 := hlen
          have hz : (max 0 (min i ((shape0 v : ℤ) - 1))).toNat < v.length := by
            omega
          have hm : v.getD ((max 0 (min i ((shape0 v : ℤ) - 1))).toNat) [] ∈ v := by
            rw [List.getD_eq_getElem v [] hz]
            exact List.getElem_mem hz
          rw [if_pos hd0]
          exact hin _ hm
        · rw [if_neg hd0]
          have hv0 : v = [] := List.length_eq_zero.mp (by omega)
          subst hv0
          rw [List.getD_nil]
          exact ⟨rfl, fun r hr => absurd hr (List.not_mem_nil r)⟩
      have h2 := rect_transposeImg _ _ _ hP
      have h3 := rect_reverse _ _ _ h2
      have heq : (if 0 < (if 0 < d0 then d1 else 0) then d2 else 0)
          = (if 0 < d0 ∧ 0 < d1 then d2 else 0) := by
        by_cases hd0 : 0 < d0 <;> by_cases hd1 : 0 < d1 <;>
          simp [hd0, hd1]
      rw [heq] at h3
      exact h3

lemma nonneg_resliceOne (v : Vol) (plane : String) (i t : ℤ)
    (hv : NonnegVol v) : NonnegImg (resliceOne v plane i t) := by
  unfold resliceOne
  split
  · split
    · apply nonneg_reverse
      apply nonneg_transposeImg
      intro r hr x hx
      simp only [List.mem_map] at hr
      obtain ⟨p, hp, rfl⟩ := hr
      rcases getD_mem_or_default p _ [] with hm | hd
      · exact hv p hp _ hm x hx
      · rw [hd] at hx
        simp at hx
    · apply nonneg_reverse
      apply nonneg_transposeImg
      intro r hr x hx
      rcases getD_mem_or_default v _ [] with hm | hd
      · exact hv _ hm r hr x hx
      · rw [hd] at hr
        simp at hr
  · intro r hr x hx
    simp only [List.mem_map] at hr
    obtain ⟨p, hp, rfl⟩ := hr
    simp only [List.mem_map] at hx
    obtain ⟨row, hrow, rfl⟩ := hx
    unfold sliceMean
    apply div_nonneg
    · apply List.sum_nonneg
      intro y hy
      exact hv p hp row hrow y
        (List.mem_of_mem_drop (List.mem_of_mem_take hy))
    · exact Nat.cast_nonneg _

lemma rect_map3 (f : ℝ → ℝ → ℝ → ℝ) (A B C : Img) (a b : ℕ)
    (hA : Rect A a b) (hB : Rect B a b) (hC : Rect C a b) :
    Rect (map3 f A B C) a b := by
  constructor
  · simp [map3, hA.1, hB.1, hC.1]
  · intro r hr
    simp only [map3, List.mem_map] at hr
    obtain ⟨⟨ra, rbc⟩, hmem, rfl⟩ := hr
    obtain ⟨rb, rc⟩ := rbc
    obtain ⟨hra, hrbc⟩ := List.of_mem_zip hmem
    obtain ⟨hrb, hrc⟩ := List.of_mem_zip hrbc
    simp only [List.length_map, List.length_zip]
    rw [hA.2 ra hra, hB.2 rb hrb, hC.2 rc hrc]
    omega

lemma nonneg_map3 (f : ℝ → ℝ → ℝ → ℝ) (A B C : Img)
    (hf : ∀ x y z : ℝ, 0 ≤ z → 0 ≤ f x y z) (hC : NonnegImg C) :
    NonnegImg (map3 f A B C) := by
  intro r hr x hx
  simp only [map3, List.mem_map] at hr
  obtain ⟨⟨ra, rbc⟩, hmem, rfl⟩ := hr
  obtain ⟨rb, rc⟩ := rbc
  obtain ⟨hra, hrbc⟩ := List.of_mem_zip hmem
  obtain ⟨hrb, hrc⟩ := List.of_mem_zip hrbc
  simp only [List.mem_map] at hx
  obtain ⟨⟨xa, xbc⟩, hm2, rfl⟩ := hx
  obtain ⟨xb, xc⟩ := xbc
  obtain ⟨hxa, hxbc⟩ := List.of_mem_zip hm2
  obtain ⟨hxb, hxc⟩ := List.of_mem_zip hxbc
  exact hf _ _ _ (hC rc hrc xc hxc)

lemma gaussWeights_nonneg (sigma : ℝ) : ∀ q ∈ gaussWeights sigma, 0 ≤ q := by
  intro q hq
  unfold gaussWeights at hq
  simp only [List.mem_map] at hq
  obtain ⟨p, hp, rfl⟩ := hq
  apply div_nonneg
  · obtain ⟨n, hn, rfl⟩ := hp
    exact le_of_lt (Real.exp_pos _)
  · apply List.sum_nonneg
    intro y hy
    simp only [List.mem_map] at hy
    obtain ⟨n, hn, rfl⟩ := hy
    exact le_of_lt (Real.exp_pos _)

lemma foldr_add_nonneg (l : List ℕ) (g : ℕ → ℝ) (hg : ∀ t, 0 ≤ g t) :
    0 ≤ l.foldr (fun t acc => acc + g t) 0 := by
  induction l with
  | nil => simp
  | cons a l ih =>
    simp only [List.foldr_cons]
    have := hg a
    linarith

lemma rect_gauss (img : Img) (sigma : ℝ) (a b : ℕ) (hr : Rect img a b) :
    Rect (gaussian_filter1d_axis0 img sigma) a b := by
  constructor
  · simp only [gaussian_filter1d_axis0, List.length_map, List.length_range]
    exact hr.1
  · intro r hrr
    simp only [gaussian_filter1d_axis0, List.mem_map, List.mem_range] at hrr
    obtain ⟨i, hi, rfl⟩ := hrr
    simp only [List.length_map, List.length_range]
    cases img with
    | nil => simp at hi
    | cons r0 l => simpa [colsOf] using hr.2 r0 (by simp)

lemma nonneg_gauss (img : Img) (sigma : ℝ) (hn : NonnegImg img) :
    NonnegImg (gaussian_filter1d_axis0 img sigma) := by
  intro r hr x hx
  simp only [gaussian_filter1d_axis0, List.mem_map, List.mem_range] at hr
  obtain ⟨i, hi, rfl⟩ := hr
  simp only [List.mem_map, List.mem_range] at hx
  obtain ⟨j, hj, rfl⟩ := hx
  apply foldr_add_nonneg
  intro t
  apply mul_nonneg
  · exact nonneg_getD _ (gaussWeights_nonneg _) t
  · exact nonneg_getD2 img hn _ _

lemma nonneg_pixZ (img : Img) (hn : NonnegImg img) (i j : ℤ) :
    0 ≤ pixZ img i j := by
  unfold pixZ
  split
  · exact nonneg_getD2 img hn _ _
  · exact le_refl 0

lemma nonneg_bilinear (img : Img) (hn : NonnegImg img) (ci cj : ℝ) :
    0 ≤ bilinear img ci cj := by
  unfold bilinear
  have h1 : (0:ℝ) ≤ ci - ⌊ci⌋ := by
    have := Int.floor_le ci
    linarith
  have h2 : ci - ⌊ci⌋ ≤ 1 := by
    have := Int.lt_floor_add_one ci
    linarith
  have h3 : (0:ℝ) ≤ cj - ⌊cj⌋ := by
    have := Int.floor_le cj
    linarith
  have h4 : cj - ⌊cj⌋ ≤ 1 := by
    have := Int.lt_floor_add_one cj
    linarith
  have p1 := nonneg_pixZ img hn ⌊ci⌋ ⌊cj⌋
  have p2 := nonneg_pixZ img hn ⌊ci⌋ (⌊cj⌋ + 1)
  have p3 := nonneg_pixZ img hn (⌊ci⌋ + 1) ⌊cj⌋
  have p4 := nonneg_pixZ img hn (⌊ci⌋ + 1) (⌊cj⌋ + 1)
  have w1 : (0:ℝ) ≤ 1 - (ci - ⌊ci⌋) := by linarith
  have w2 : (0:ℝ) ≤ 1 - (cj - ⌊cj⌋) := by linarith
  apply add_nonneg
  apply add_nonneg
  apply add_nonneg
  · exact mul_nonneg (mul_nonneg w1 w2) p1
  · exact mul_nonneg (mul_nonneg w1 h3) p2
  · exact mul_nonneg (mul_nonneg h1 w2) p3
  · exact mul_nonneg (mul_nonneg h1 h3) p4

lemma rect_ndzoom (img : Img) (zh zw : ℝ) :
    Rect (ndzoom img zh zw) (round ((img.length : ℝ) * zh)).toNat
      (round ((colsOf img : ℝ) * zw)).toNat := by
  constructor
  · simp only [ndzoom, List.length_map, List.length_range]
  · intro r hr
    simp only [ndzoom, List.mem_map] at hr
    obtain ⟨i, hi, rfl⟩ := hr
    simp only [List.length_map, List.length_range]

lemma nonneg_ndzoom (img : Img) (zh zw : ℝ) (hn : NonnegImg img) :
    NonnegImg (ndzoom img zh zw) := by
  intro r hr x hx
  simp only [ndzoom, List.mem_map] at hr
  obtain ⟨i, hi, rfl⟩ := hr
  simp only [List.mem_map] at hx
  obtain ⟨j, hj, rfl⟩ := hx
  exact nonneg_bilinear img hn _ _

lemma rect_ndrotate (img : Img) (angle : ℝ) :
    Rect (ndrotate img angle) img.length (colsOf img) := by
  constructor
  · simp only [ndrotate, List.length_map, List.length_range]
  · intro r hr
    simp only [ndrotate, List.mem_map] at hr
    obtain ⟨i, hi, rfl⟩ := hr
    simp only [List.length_map, List.length_range]

lemma nonneg_ndrotate (img : Img) (angle : ℝ) (hn : NonnegImg img) :
    NonnegImg (ndrotate img angle) := by
  intro r hr x hx
  simp only [ndrotate, List.mem_map] at hr
  obtain ⟨i, hi, rfl⟩ := hr
  simp only [List.mem_map] at hx
  obtain ⟨j, hj, rfl⟩ := hx
  exact nonneg_bilinear img hn _ _

lemma nonneg_crop_or_pad (img : Img) (t : ℕ) (hn : NonnegImg img) :
    NonnegImg (crop_or_pad img t) := by
  unfold crop_or_pad
  split
  · exact hn
  · have hh : NonnegImg (heightStep img (img.headD []).length t) := by
      intro r hr x hx
      rcases heightStep_mem img (img.headD []).length t r hr with hm | hrep
      · exact hn r hm x hx
      · rw [hrep] at hx
        exact (List.eq_of_mem_replicate hx).ge
    intro r hr x hx
    unfold widthStep at hr
    split at hr
    · simp only [List.mem_map] at hr
      obtain ⟨r0, hr0, rfl⟩ := hr
      exact hh r0 hr0 x (List.mem_of_mem_drop (List.mem_of_mem_take hx))
    · simp only [List.mem_map] at hr
      obtain ⟨r0, hr0, rfl⟩ := hr
      simp only [List.mem_append] at hx
      rcases hx with (hx | hx) | hx
      · exact (List.eq_of_mem_replicate hx).ge
      · exact hh r0 hr0 x hx
      · exact (List.eq_of_mem_replicate hx).ge

lemma rect_fft2 (img : Img) (h w : ℕ) (hr : Rect img h w) (hh : 0 < h) :
    Rect (fft2 img) h w := by
  constructor
  · simp [fft2, hr.1]
  · intro r hrr
    simp only [fft2, List.mem_map] at hrr
    obtain ⟨u, hu, rfl⟩ := hrr
    simp only [List.length_map, List.length_range]
    cases img with
    | nil =>
      rw [← hr.1] at hh
      simp at hh
    | cons r0 l => simpa [colsOf] using hr.2 r0 (by simp)

lemma length_rollRight {α : Type} (l : List α) (k : ℕ) :
    (rollRight l k).length = l.length := by
  simp only [rollRight, List.length_append, List.length_take,
    List.length_drop]
  omega

lemma mem_rollRight {α : Type} (l : List α) (k : ℕ) (a : α)
    (h : a ∈ rollRight l k) : a ∈ l := by
  simp only [rollRight, List.mem_append] at h
  rcases h with h | h
  · exact List.mem_of_mem_drop h
  · exact List.mem_of_mem_take h

lemma rect_fftshift {α : Type} (m : List (List α)) (h w : ℕ)
    (hr : Rect m h w) : Rect (fftshift m) h w := by
  constructor
  · simp [fftshift, length_rollRight, hr.1]
  · intro r hrr
    simp only [fftshift, List.mem_map] at hrr
    obtain ⟨r0, hr0, rfl⟩ := hrr
    rw [length_rollRight]
    exact hr.2 r0 (mem_rollRight _ _ _ hr0)

lemma inversion_recovery_nonneg (t1 t2 pd tr te ti fa : ℝ) :
    0 ≤ inversion_recovery t1 t2 pd tr te ti fa := abs_nonneg _

lemma rect_seq_signal (seq : String) (A B C : Img) (tr te ti fa : ℝ)
    (etl : ℤ) (esp : ℝ) (a b : ℕ)
    (hA : Rect A a b) (hB : Rect B a b) (hC : Rect C a b) :
    Rect (seq_signal seq A B C tr te ti fa etl esp) a b := by
  unfold seq_signal
  split
  · exact rect_map3 _ _ _ _ _ _ hA hB hC
  · split
    · exact rect_map3 _ _ _ _ _ _ hA hB hC
    · split
      · split
        · exact rect_gauss _ _ _ _ (rect_map3 _ _ _ _ _ _ hA hB hC)
        · exact rect_map3 _ _ _ _ _ _ hA hB hC
      · exact rect_map3 _ _ _ _ _ _ hA hB hC

lemma nonneg_seq_signal (seq : String) (A B C : Img) (tr te ti fa : ℝ)
    (etl : ℤ) (esp : ℝ) (hC : NonnegImg C)
    (htr : 0 ≤ tr) (hfa0 : 0 ≤ fa) (hfa1 : fa ≤ 180) :
    NonnegImg (seq_signal seq A B C tr te ti fa etl esp) := by
  unfold seq_signal
  split
  · exact nonneg_map3 _ _ _ _
      (fun x y z _ => inversion_recovery_nonneg x y z tr te ti fa) hC
  · split
    · exact nonneg_map3 _ _ _ _ (fun x y z _ => abs_nonneg _) hC
    · split
      · split
        · exact nonneg_gauss _ _ (nonneg_map3 _ _ _ _
            (fun x y z hz => css_nonneg x y z tr te fa hz htr hfa0 hfa1) hC)
        · exact nonneg_map3 _ _ _ _
            (fun x y z hz => css_nonneg x y z tr te fa hz htr hfa0 hfa1) hC
      · exact nonneg_map3 _ _ _ _
          (fun x y z hz => css_nonneg x y z tr te fa hz htr hfa0 hfa1) hC

lemma zoom_stage_props (img : Img) (zh1 zw1 zh2 zw2 : ℝ) (c1 c2 : Prop)
    [Decidable c1] [Decidable c2]
    (hr : ∃ a b, Rect img a b) (hn : NonnegImg img) :
    (∃ a b, Rect (if c1 then (if c2 then ndzoom img zh1 zw1
        else ndzoom img zh2 zw2) else img) a b) ∧
    NonnegImg (if c1 then (if c2 then ndzoom img zh1 zw1
        else ndzoom img zh2 zw2) else img) := by
  split
  · split
    · exact ⟨⟨_, _, rect_ndzoom img zh1 zw1⟩, nonneg_ndzoom img zh1 zw1 hn⟩
    · exact ⟨⟨_, _, rect_ndzoom img zh2 zw2⟩, nonneg_ndzoom img zh2 zw2 hn⟩
  · exact ⟨hr, hn⟩

lemma rotation_stage_props (y : Img) (rot : ℝ)
    (hr : ∃ a b, Rect y a b) (hn : NonnegImg y) :
    (∃ a b, Rect (if rot ≠ 0 then ndrotate y rot else y) a b) ∧
    NonnegImg (if rot ≠ 0 then ndrotate y rot else y) := by
  split
  · exact ⟨⟨_, _, rect_ndrotate y rot⟩, nonneg_ndrotate y rot hn⟩
  · exact ⟨hr, hn⟩

lemma crop_tail_props (x : Img) (M : ℕ) (hM : 0 < M)
    (hr : ∃ a b, Rect x a b) (hn : NonnegImg x) (c : Prop) [Decidable c] :
    Rect (if c then (transposeImg (crop_or_pad x M)).reverse
        else crop_or_pad x M) M M ∧
    NonnegImg (if c then (transposeImg (crop_or_pad x M)).reverse
        else crop_or_pad x M) := by
  obtain ⟨a, b, hab⟩ := hr
  have h0 := rect_crop_or_pad x a b M hab hM
  have h0n := nonneg_crop_or_pad x M hn
  split
  · have ht := rect_transposeImg _ _ _ h0
    rw [if_pos hM] at ht
    exact ⟨rect_reverse _ _ _ ht,
      nonneg_reverse _ (nonneg_transposeImg _ h0n)⟩
  · exact ⟨h0, h0n⟩

lemma geometry_stage_props (img : Img) (plane : String) (fov : ℝ)
    (thickness : ℤ) (gap : ℝ) (M : ℕ) (rot : ℝ) (hM : 0 < M)
    (hr : ∃ a b, Rect img a b) (hn : NonnegImg img) :
    Rect (geometry_stage img plane fov thickness gap M rot) M M ∧
    NonnegImg (geometry_stage img plane fov thickness gap M rot) := by
  simp only [geometry_stage]
  have hz := zoom_stage_props img
    ((pyTrunc ((if plane ≠ "axial"
        then (img.length : ℝ) * ((thickness : ℝ) + gap) else base_fov)
        * ((M : ℝ) / fov)) : ℝ) / (img.length : ℝ))
    ((pyTrunc (base_fov * ((M : ℝ) / fov)) : ℝ) / (colsOf img : ℝ))
    ((pyTrunc (base_fov * ((M : ℝ) / fov)) : ℝ) / (colsOf img : ℝ))
    ((pyTrunc (base_fov * ((M : ℝ) / fov)) : ℝ) / (colsOf img : ℝ))
    (0 < img.length ∧ 0 < colsOf img) (plane ≠ "axial") hr hn
  have hrot := rotation_stage_props _ rot hz.1 hz.2
  exact crop_tail_props _ M hM hrot.1 hrot.2 _

/-- C6 (amended): for every loaded volume triple of one common non-degenerate
shape (all three extents positive) with non-negative entries, every plane and
sequence name, TR ≥ 0, FA ∈ [0, 180], FOV > 0, thickness + gap ≥ 0, a
positive echo spacing whenever ETL > 1, and matrix size M > 0,
calculate_image returns a 2-D real array of shape exactly M×M with all
entries non-negative, and caches exactly fftshift(fft2(image)), a complex
array of the same M×M shape.  The hypotheses beyond the sign conditions of
the signal equations confine the statement to the parameter range where the
source's geometry is well-posed: FOV > 0 rules out the ZeroDivisionError at
fov = 0 and, with thickness + gap ≥ 0, the negative scipy target sizes;
positive extents rule out np.mean over an empty slab; non-negative T1/T2
keep the EPI decay denominator positive; and ETL > 1 → ESP > 0 keeps the
FSE Gaussian sigma positive.  Outside this range the source raises or
produces NaN while this total embedding does not, so no claim is made
there. -/
theorem render_shape_nonneg_kspace (t1_vol t2_vol pd_vol : Vol)
    (d0 d1 d2 : ℕ) (seq_type : String) (tr te ti fa : ℝ)
    (slice_idx etl : ℤ) (esp fov : ℝ) (thickness : ℤ) (gap : ℝ)
    (matrix_size : ℕ) (rotation : ℝ) (view_plane : String)
    (h1 : Rect3 t1_vol d0 d1 d2) (h2 : Rect3 t2_vol d0 d1 d2)
    (h3 : Rect3 pd_vol d0 d1 d2)
    (hd0 : 0 < d0) (hd1 : 0 < d1) (hd2 : 0 < d2)
    (hnn1 : NonnegVol t1_vol) (hnn2 : NonnegVol t2_vol)
    (hpd : NonnegVol pd_vol)
    (htr : 0 ≤ tr) (hfa0 : 0 ≤ fa) (hfa1 : fa ≤ 180)
    (hfov : 0 < fov) (htg : 0 ≤ (thickness : ℝ) + gap)
    (hesp : 1 < etl → 0 < esp)
    (hM : 0 < matrix_size) :
    ∃ img : Img,
      calculate_image (some (t1_vol, t2_vol, pd_vol)) seq_type tr te ti fa
          slice_idx etl esp fov thickness gap matrix_size rotation view_plane
        = some (img, fftshift (fft2 img)) ∧
      Rect img matrix_size matrix_size ∧
      NonnegImg img ∧
      Rect (fftshift (fft2 img)) matrix_size matrix_size := by
  have hs1 := rect_resliceOne t1_vol d0 d1 d2 view_plane slice_idx thickness h1
  have hs2 := rect_resliceOne t2_vol d0 d1 d2 view_plane slice_idx thickness h2
  have hs3 := rect_resliceOne pd_vol d0 d1 d2 view_plane slice_idx thickness h3
  have hsn := nonneg_resliceOne pd_vol view_plane slice_idx thickness hpd
  have hsig := rect_seq_signal seq_type _ _ _ tr te ti fa etl esp _ _
    hs1 hs2 hs3
  have hsign := nonneg_seq_signal seq_type
    (resliceOne t1_vol view_plane slice_idx thickness)
    (resliceOne t2_vol view_plane slice_idx thickness)
    (resliceOne pd_vol view_plane slice_idx thickness)
    tr te ti fa etl esp hsn htr hfa0 hfa1
  have hgeo := geometry_stage_props
    (seq_signal seq_type
      (resliceOne t1_vol view_plane slice_idx thickness)
      (resliceOne t2_vol view_plane slice_idx thickness)
      (resliceOne pd_vol view_plane slice_idx thickness)
      tr te ti fa etl esp)
    view_plane fov thickness gap matrix_size rotation hM
    ⟨_, _, hsig⟩ hsign
  exact ⟨geometry_stage
      (seq_signal seq_type
        (resliceOne t1_vol view_plane slice_idx thickness)
        (resliceOne t2_vol view_plane slice_idx thickness)
        (resliceOne pd_vol view_plane slice_idx thickness)
        tr te ti fa etl esp)
      view_plane fov thickness gap matrix_size rotation,
    rfl, hgeo.1, hgeo.2,
    rect_fftshift _ matrix_size matrix_size
      (rect_fft2 _ matrix_size matrix_size hgeo.1 hM)⟩

/-- Witness for the amended C6 at a concrete 1×1×1 volume rendered axially
with the plain spin-echo sequence at M = 2. -/
theorem render_shape_nonneg_kspace_witness :
    Rect3 [[[ (600:ℝ) ]]] 1 1 1 ∧ 0 < 1 ∧
    NonnegVol [[[ (600:ℝ) ]]] ∧ NonnegVol [[[ (70:ℝ) ]]] ∧
    NonnegVol [[[ (1:ℝ) ]]] ∧
    (0:ℝ) ≤ 500 ∧ (0:ℝ) ≤ 90 ∧ (90:ℝ) ≤ 180 ∧ (0:ℝ) < 240 ∧
    (0:ℝ) ≤ ((1:ℤ) : ℝ) + 0 ∧ ((1:ℤ) < 1 → (0:ℝ) < 10) ∧ 0 < 2 ∧
    (∃ img : Img,
      calculate_image (some ([[[ (600:ℝ) ]]], [[[ (70:ℝ) ]]], [[[ (1:ℝ) ]]]))
          "SE" 500 20 0 90 0 1 10 240 1 0 2 0 "axial"
        = some (img, fftshift (fft2 img)) ∧
      Rect img 2 2 ∧ NonnegImg img ∧ Rect (fftshift (fft2 img)) 2 2) :=
  ⟨by simp [Rect3], by norm_num, by simp [NonnegVol], by simp [NonnegVol],
    by simp [NonnegVol], by norm_num, by norm_num, by norm_num,
    by norm_num, by norm_num, fun h => by norm_num, by norm_num,
    render_shape_nonneg_kspace [[[ (600:ℝ) ]]] [[[ (70:ℝ) ]]] [[[ (1:ℝ) ]]]
      1 1 1 "SE" 500 20 0 90 0 1 10 240 1 0 2 0 "axial"
      (by simp [Rect3]) (by simp [Rect3]) (by simp [Rect3])
      (by norm_num) (by norm_num) (by norm_num)
      (by simp [NonnegVol]) (by simp [NonnegVol]) (by simp [NonnegVol])
      (by norm_num) (by norm_num) (by norm_num)
      (by norm_num) (by norm_num) (fun h => by norm_num) (by norm_num)⟩

lemma geometry_stage_singleton (x : ℝ) :
    geometry_stage [[x]] "axial" 240 1 0 1 0 = [[x]] := by
  have hcols : colsOf [[x]] = 1 := rfl
  have htw : pyTrunc (base_fov * ((1 : ℕ) / (240:ℝ))) = 1 := by
    have : base_fov * ((1 : ℕ) / (240:ℝ)) = 1 := by
      unfold base_fov
      norm_num
    rw [this]
    unfold pyTrunc
    rw [if_pos (by norm_num : (0:ℝ) ≤ 1)]
    exact Int.floor_one
  have hzoom : ndzoom [[x]] ((1:ℤ) / ((1:ℕ):ℝ)) ((1:ℤ) / ((1:ℕ):ℝ)) = [[x]] := by
    unfold ndzoom
    have h1 : ((([[x]] : Img).length : ℝ) * ((1:ℤ) / ((1:ℕ):ℝ))) = 1 := by
      norm_num
    have h2 : (((colsOf [[x]]) : ℝ) * ((1:ℤ) / ((1:ℕ):ℝ))) = 1 := by
      rw [hcols]
      norm_num
    rw [h1, h2]
    have hr1 : (round (1:ℝ)).toNat = 1 := by
      rw [round_one]
      rfl
    rw [hr1]
    have hb : bilinear [[x]] 0 0 = x := by
      unfold bilinear pixZ getD2
      norm_num
    simp [List.range_succ, hb]
  unfold geometry_stage
  rw [if_neg (by simp : ¬("axial" ≠ "axial"))]
  rw [if_neg (by simp : ¬("axial" ≠ "axial"))]
  rw [if_pos (by constructor <;> simp [colsOf] : 0 < ([[x]] : Img).length
    ∧ 0 < colsOf [[x]])]
  rw [if_neg (by simp : ¬((0:ℝ) ≠ 0))]
  rw [hcols, htw, hzoom]
  exact crop_or_pad_self [[x]] 1 ⟨rfl, by simp⟩

/-- Counterexample for C6 as stated: rendering a 1×1×1 volume with the plain
spin-echo sequence at FA = -90° returns an image whose single entry is
strictly negative, refuting non-negativity for arbitrary parameters. -/
theorem render_nonneg_counterexample :
    getD2 ((calculate_image (some ([[[ (1:ℝ) ]]], [[[1]]], [[[1]]])) "SE"
        1 0 0 (-90) 0 1 10 240 1 0 1 0 "axial").getD ([], [])).1 0 0
      < 0 := by
  have hslab : resliceOne [[[ (1:ℝ) ]]] "axial" 0 1 = [[1]] := by
    unfold resliceOne
    rw [if_neg (by simp : ¬("axial" ≠ "axial"))]
    have hw : axialWindow ((shape2 [[[ (1:ℝ) ]]]) : ℤ) 0 1 = (0, 1) := by
      have : (shape2 [[[ (1:ℝ) ]]] : ℤ) = 1 := rfl
      rw [this]
      unfold axialWindow pyHalf
      norm_num
    rw [hw]
    have hm : sliceMean [(1:ℝ)] (0:ℤ).toNat (1:ℤ).toNat = 1 := by
      unfold sliceMean
      norm_num
    simp only [List.map_cons, List.map_nil, hm]
  have hsig : seq_signal "SE" [[(1:ℝ)]] [[1]] [[1]] 1 0 0 (-90) 1 10
      = [[spin_echo 1 1 1 1 0 (-90)]] := by
    unfold seq_signal
    rw [if_neg (by decide), if_neg (by decide), if_neg (by decide)]
    simp [map3]
  have hval : spin_echo 1 1 1 1 0 (-90)
      = (1 * (1 - Real.exp (-1)) * (-1)) / (1 + 1e-9) := by
    unfold spin_echo calculate_signal_steady_state radians
    have hrad : (-90:ℝ) * (Real.pi / 180) = -(Real.pi / 2) := by ring
    rw [hrad, Real.sin_neg, Real.sin_pi_div_two, Real.cos_neg,
      Real.cos_pi_div_two]
    have hmax : max (1:ℝ) 1e-5 = 1 := max_eq_left (by norm_num)
    rw [hmax]
    norm_num
  have hneg : (1 * (1 - Real.exp (-1)) * (-1)) / (1 + 1e-9) < (0:ℝ) := by
    apply div_neg_of_neg_of_pos
    · have hex : Real.exp (-1) < 1 := by
        rw [Real.exp_lt_one_iff]
        norm_num
      nlinarith
    · norm_num
  have hcalc : calculate_image (some ([[[ (1:ℝ) ]]], [[[1]]], [[[1]]])) "SE"
      1 0 0 (-90) 0 1 10 240 1 0 1 0 "axial"
      = some ([[(1 * (1 - Real.exp (-1)) * (-1)) / (1 + 1e-9)]],
        fftshift (fft2 [[(1 * (1 - Real.exp (-1)) * (-1)) / (1 + 1e-9)]])) := by
    simp only [calculate_image]
    rw [hslab, hsig, hval, geometry_stage_singleton]
  rw [hcalc]
  simp only [Option.getD_some]
  unfold getD2
  simp only [List.getD_cons_zero]
  exact hneg

end MRISim
